import Mathlib

/-!
Bresenham line rasterizer (`src/line-renderer.c`)

A shallow embedding of `render_bresenham_line` and a verification of its
contract.

* The code computes with C `int`.  Its embedding is the `…32` family
  (`setup32`, `loop_body32`, `while_loop32`, `render_bresenham_line32`): every
  arithmetic result is wrapped to 32 bits, in source order.
* `setup`, `loop_body`, `while_loop` and `render_bresenham_line` are the same
  code read over exact integers (`Int`).  This is what the code computes
  whenever no operation overflows; `render32_eq` proves the two readings equal
  for coordinates in `[-2^29, 2^29 - 1]`, and the contract is stated for the
  32-bit code on that range.
* The SDL renderer is a caller-owned handle; the only thing the function does
  with it is the NULL test and one `SDL_RenderDrawPoint` call per loop
  iteration.  The embedding returns the list of plotted points in call order.
* The `while` loop is embedded with an iteration budget (`fuel`): the result
  is `none` when the budget is exhausted before the loop condition fails, and
  `some pts` when the function returns having plotted `pts`.
-/

namespace Bresenham

/-- A plotted pixel position `(x, y)`. -/
abbrev Point := Int × Int

/-- The caller-owned drawing context; a NULL pointer is `none : Option SDL_Renderer`. -/
structure SDL_Renderer where
  handle : Nat
deriving DecidableEq, Repr

/-- The loop-invariant part of the frame of reference (lines 67-104):
the `shallow` flag decides the aliasing of `x`, `y` onto `a`, `b`. -/
structure Frame where
  shallow : Bool
  aDiff : Int
  bDiff : Int
  aInc : Int
  bInc : Int
  aTerm : Int
deriving DecidableEq, Repr

/-- The variables the loop mutates: `a`, `b` and `sign`. -/
structure Vars where
  a : Int
  b : Int
  sign : Int
deriving DecidableEq, Repr

/-- The pair `(*x, *y)`: `x = &a, y = &b` when shallow, `x = &b, y = &a` otherwise. -/
def deref_xy (f : Frame) (v : Vars) : Point :=
  if f.shallow then (v.a, v.b) else (v.b, v.a)

/-- One execution of the loop body after the plot (lines 114-124), read over
exact integers: the values the code computes when no operation overflows
(see `loop_body32` for the 32-bit code). -/
def loop_body (f : Frame) (v : Vars) : Vars :=
  if v.sign ≥ 0 then
    { a := v.a + f.aInc
      b := v.b + f.bInc
      sign := v.sign + (f.bDiff + f.bDiff - f.aDiff - f.aDiff) }
  else
    { a := v.a + f.aInc
      b := v.b
      sign := v.sign + (f.bDiff + f.bDiff) }

/-- The loop `while (a != aTerm) { plot; body }` (lines 110-125) with at most
`fuel` executions of the body, over exact integers; the points are listed in
plot order. -/
def while_loop (f : Frame) : Nat → Vars → Option (List Point)
  | 0, v => if v.a = f.aTerm then some [] else none
  | fuel + 1, v =>
    if v.a = f.aTerm then some []
    else (while_loop f fuel (loop_body f v)).map (fun pts => deref_xy f v :: pts)

/-- Lines 39-107: displacement, octant classification, frame of reference and
the initial value of `sign`, read over exact integers: the values the code
computes when no operation overflows (see `setup32` for the 32-bit code). -/
def setup (p_x1 p_y1 p_x2 p_y2 : Int) : Frame × Vars :=
  let xDiff := p_x2 - p_x1
  let yDiff := p_y2 - p_y1
  let xDiffAbs := if xDiff < 0 then -xDiff else xDiff
  let yDiffAbs := if yDiff < 0 then -yDiff else yDiff
  let posXDiff := decide (xDiff ≥ 0)
  let posYDiff := decide (yDiff ≥ 0)
  let shallow := decide (xDiffAbs - yDiffAbs ≥ 0)
  if shallow then
    let aInc : Int := if posXDiff then 1 else -1
    let bInc : Int := if posYDiff then 1 else -1
    ({ shallow := true, aDiff := xDiffAbs, bDiff := yDiffAbs, aInc := aInc, bInc := bInc,
       aTerm := p_x2 + aInc },
     { a := p_x1, b := p_y1, sign := yDiffAbs + yDiffAbs - xDiffAbs })
  else
    let aInc : Int := if posYDiff then 1 else -1
    let bInc : Int := if posXDiff then 1 else -1
    ({ shallow := false, aDiff := yDiffAbs, bDiff := xDiffAbs, aInc := aInc, bInc := bInc,
       aTerm := p_y2 + aInc },
     { a := p_y1, b := p_x1, sign := xDiffAbs + xDiffAbs - yDiffAbs })

/-- The function `render_bresenham_line` read over exact integers: `some pts`
when the call returns having plotted `pts` (in order), `none` when `fuel`
iterations do not suffice.  The 32-bit code is `render_bresenham_line32`. -/
def render_bresenham_line (fuel : Nat) (p_renderer : Option SDL_Renderer)
    (p_x1 p_y1 p_x2 p_y2 : Int) : Option (List Point) :=
  match p_renderer with
  | none => some []
  | some _ =>
    while_loop (setup p_x1 p_y1 p_x2 p_y2).1 fuel (setup p_x1 p_y1 p_x2 p_y2).2

/-- Over exact integers, the call with a drawing context returns after some
number `n` of loop iterations, having plotted exactly `pts`: with any handle,
every budget of at least `n` iterations yields `pts`, and every smaller budget
is exhausted. -/
def Plots (p_x1 p_y1 p_x2 p_y2 : Int) (pts : List Point) : Prop :=
  ∃ n, ∀ fuel r,
    render_bresenham_line fuel (some r) p_x1 p_y1 p_x2 p_y2 = if n ≤ fuel then some pts else none

/-! ## The code over 32-bit `int` with wrap-around arithmetic -/

/-- The value of a 32-bit two's-complement `int` that an exact result `v`
wraps around to. -/
def wrap32 (v : Int) : Int := (v + 2147483648) % 4294967296 - 2147483648

/-- The value `v` is representable as a 32-bit `int`: `-2^31 ≤ v ≤ 2^31 - 1`. -/
def inInt32 (v : Int) : Prop := -2147483648 ≤ v ∧ v ≤ 2147483647

instance (v : Int) : Decidable (inInt32 v) := by
  unfold inInt32
  infer_instance

/-- The loop body (lines 114-124) with every arithmetic result wrapped to 32 bits. -/
def loop_body32 (f : Frame) (v : Vars) : Vars :=
  if v.sign ≥ 0 then
    { a := wrap32 (v.a + f.aInc)
      b := wrap32 (v.b + f.bInc)
      sign := wrap32 (v.sign +
        wrap32 (wrap32 (wrap32 (f.bDiff + f.bDiff) - f.aDiff) - f.aDiff)) }
  else
    { a := wrap32 (v.a + f.aInc)
      b := v.b
      sign := wrap32 (v.sign + wrap32 (f.bDiff + f.bDiff)) }

/-- The loop (lines 110-125) over 32-bit arithmetic, with an iteration budget. -/
def while_loop32 (f : Frame) : Nat → Vars → Option (List Point)
  | 0, v => if v.a = f.aTerm then some [] else none
  | fuel + 1, v =>
    if v.a = f.aTerm then some []
    else (while_loop32 f fuel (loop_body32 f v)).map (fun pts => deref_xy f v :: pts)

/-- Lines 39-107 with every arithmetic result wrapped to 32 bits. -/
def setup32 (p_x1 p_y1 p_x2 p_y2 : Int) : Frame × Vars :=
  let xDiff := wrap32 (p_x2 - p_x1)
  let yDiff := wrap32 (p_y2 - p_y1)
  let xDiffAbs := if xDiff < 0 then wrap32 (-xDiff) else xDiff
  let yDiffAbs := if yDiff < 0 then wrap32 (-yDiff) else yDiff
  let posXDiff := decide (xDiff ≥ 0)
  let posYDiff := decide (yDiff ≥ 0)
  let shallow := decide (wrap32 (xDiffAbs - yDiffAbs) ≥ 0)
  if shallow then
    let aInc : Int := if posXDiff then 1 else -1
    let bInc : Int := if posYDiff then 1 else -1
    ({ shallow := true, aDiff := xDiffAbs, bDiff := yDiffAbs, aInc := aInc, bInc := bInc,
       aTerm := wrap32 (p_x2 + aInc) },
     { a := p_x1, b := p_y1, sign := wrap32 (wrap32 (yDiffAbs + yDiffAbs) - xDiffAbs) })
  else
    let aInc : Int := if posYDiff then 1 else -1
    let bInc : Int := if posXDiff then 1 else -1
    ({ shallow := false, aDiff := yDiffAbs, bDiff := xDiffAbs, aInc := aInc, bInc := bInc,
       aTerm := wrap32 (p_y2 + aInc) },
     { a := p_y1, b := p_x1, sign := wrap32 (wrap32 (xDiffAbs + xDiffAbs) - yDiffAbs) })

/-- The function `render_bresenham_line` over 32-bit wrap-around arithmetic. -/
def render_bresenham_line32 (fuel : Nat) (p_renderer : Option SDL_Renderer)
    (p_x1 p_y1 p_x2 p_y2 : Int) : Option (List Point) :=
  match p_renderer with
  | none => some []
  | some _ =>
    while_loop32 (setup32 p_x1 p_y1 p_x2 p_y2).1 fuel (setup32 p_x1 p_y1 p_x2 p_y2).2

/-- The 32-bit call with a drawing context returns after some number `n` of
loop iterations, having plotted exactly `pts`: with any handle, every budget
of at least `n` iterations yields `pts`, and every smaller budget is exhausted. -/
def Plots32 (p_x1 p_y1 p_x2 p_y2 : Int) (pts : List Point) : Prop :=
  ∃ n, ∀ fuel r,
    render_bresenham_line32 fuel (some r) p_x1 p_y1 p_x2 p_y2 =
      if n ≤ fuel then some pts else none

/-- All four coordinates lie in `[-2^29, 2^29 - 1]` (`2^29 = 536870912`). -/
def CoordsInRange (x1 y1 x2 y2 : Int) : Prop :=
  (-536870912 ≤ x1 ∧ x1 ≤ 536870911) ∧ (-536870912 ≤ y1 ∧ y1 ≤ 536870911) ∧
    (-536870912 ≤ x2 ∧ x2 ≤ 536870911) ∧ (-536870912 ≤ y2 ∧ y2 ≤ 536870911)

instance (x1 y1 x2 y2 : Int) : Decidable (CoordsInRange x1 y1 x2 y2) := by
  unfold CoordsInRange
  infer_instance

/-- Number of secondary-axis advances (executions of the `sign >= 0` branch,
lines 116-120) during the first `k` iterations of the 32-bit loop started in `v`. -/
def advanceCount32 (f : Frame) (v : Vars) : Nat → Nat
  | 0 => 0
  | k + 1 => advanceCount32 f v k + (if ((loop_body32 f)^[k] v).sign ≥ 0 then 1 else 0)

/-! ## Closed form of the plotted sequence

Specification-side definitions: they describe the output in closed form and
are proved equal to what the embedded code plots (`render_eq`). -/

/-- The increment the code picks for a displacement `d`: `1` when `d ≥ 0`, else `-1`. -/
def incOf (d : Int) : Int := if d ≥ 0 then 1 else -1

/-- Number of secondary-axis advances before the `k`-th plot, for driving
displacement `A` and secondary displacement `B`: `⌊(2*B*k + A) / (2*A)⌋`. -/
def advances (A B k : Int) : Int := (2 * B * k + A) / (2 * A)

/-- Chebyshev distance of the endpoints, `max(|x2-x1|, |y2-y1|)`, as a natural number. -/
def steps (x1 y1 x2 y2 : Int) : Nat := max (x2 - x1).natAbs (y2 - y1).natAbs

/-- The driving coordinate of a point for the segment `(x1,y1) → (x2,y2)`:
`x` when `|dx| ≥ |dy|`, otherwise `y`. -/
def driving (x1 y1 x2 y2 : Int) (p : Point) : Int :=
  if |y2 - y1| ≤ |x2 - x1| then p.1 else p.2

/-- The secondary coordinate of a point for the segment `(x1,y1) → (x2,y2)`. -/
def secondary (x1 y1 x2 y2 : Int) (p : Point) : Int :=
  if |y2 - y1| ≤ |x2 - x1| then p.2 else p.1

/-- Closed form of the `k`-th plotted point. -/
def linePoint (x1 y1 x2 y2 : Int) (k : Nat) : Point :=
  if |y2 - y1| ≤ |x2 - x1| then
    (x1 + k * incOf (x2 - x1), y1 + advances |x2 - x1| |y2 - y1| k * incOf (y2 - y1))
  else
    (x1 + advances |y2 - y1| |x2 - x1| k * incOf (x2 - x1), y1 + k * incOf (y2 - y1))

/-- The closed-form sequence `linePoint 0, …, linePoint (steps)`. -/
def lineList (x1 y1 x2 y2 : Int) : List Point :=
  (List.range (steps x1 y1 x2 y2 + 1)).map (linePoint x1 y1 x2 y2)

/-- The increment of the driving coordinate chosen by the code. -/
def drivingInc (x1 y1 x2 y2 : Int) : Int :=
  if |y2 - y1| ≤ |x2 - x1| then incOf (x2 - x1) else incOf (y2 - y1)

/-- The increment of the secondary coordinate chosen by the code. -/
def secondaryInc (x1 y1 x2 y2 : Int) : Int :=
  if |y2 - y1| ≤ |x2 - x1| then incOf (y2 - y1) else incOf (x2 - x1)

/-- The state of the loop variables after `k` iterations, in closed form. -/
def closedVars (f : Frame) (v0 : Vars) (k : Nat) : Vars :=
  { a := v0.a + k * f.aInc
    b := v0.b + advances f.aDiff f.bDiff k * f.bInc
    sign := 2 * f.bDiff * (k + 1) - f.aDiff - 2 * f.aDiff * advances f.aDiff f.bDiff k }

/-- Number of secondary-axis advances (executions of the `sign >= 0` branch,
lines 116-120) during the first `k` iterations of the loop started in `v`. -/
def advanceCount (f : Frame) (v : Vars) : Nat → Nat
  | 0 => 0
  | k + 1 => advanceCount f v k + (if ((loop_body f)^[k] v).sign ≥ 0 then 1 else 0)

/-! ## The loop -/

theorem while_loop_run (f : Frame) (r : Nat) : ∀ (v : Vars),
    (∀ j, j < r → ((loop_body f)^[j] v).a ≠ f.aTerm) →
    ((loop_body f)^[r] v).a = f.aTerm →
    ∀ fuel, while_loop f fuel v =
      if r ≤ fuel then some ((List.range r).map fun j => deref_xy f ((loop_body f)^[j] v))
      else none := by
  induction r with
  | zero =>
    intro v _ hend fuel
    have h0 : v.a = f.aTerm := by simpa using hend
    cases fuel <;> simp [while_loop, h0]
  | succ r ih =>
    intro v hne hend fuel
    have h0 : v.a ≠ f.aTerm := by simpa using hne 0 (Nat.succ_pos r)
    cases fuel with
    | zero => simp [while_loop, h0]
    | succ fuel =>
      have hne1 : ∀ j, j < r → ((loop_body f)^[j] (loop_body f v)).a ≠ f.aTerm := by
        intro j hj
        have := hne (j + 1) (Nat.succ_lt_succ hj)
        simpa [Function.iterate_succ_apply] using this
      have hend1 : ((loop_body f)^[r] (loop_body f v)).a = f.aTerm := by
        simpa [Function.iterate_succ_apply] using hend
      rw [while_loop, if_neg h0, ih (loop_body f v) hne1 hend1 fuel]
      by_cases hr : r ≤ fuel
      · simp [hr, List.range_succ_eq_map, Function.iterate_succ_apply, Function.comp_def]
      · simp [hr]

theorem iterate_a (f : Frame) (v : Vars) (j : Nat) :
    ((loop_body f)^[j] v).a = v.a + j * f.aInc := by
  induction j generalizing v with
  | zero => simp
  | succ j ih =>
    rw [Function.iterate_succ_apply, ih]
    have : (loop_body f v).a = v.a + f.aInc := by
      unfold loop_body; split <;> rfl
    rw [this]; push_cast; ring

/-- Characterisation of the floor used by `advances`. -/
theorem advances_eq_of_bounds {A B k m : Int} (hA : 0 < A)
    (hlo : 2 * A * m ≤ 2 * B * k + A) (hhi : 2 * B * k + A < 2 * A * (m + 1)) :
    advances A B k = m := by
  unfold advances
  have h2 : (0 : Int) < 2 * A := by linarith
  apply le_antisymm
  · have : (2 * B * k + A) / (2 * A) < m + 1 := by
      apply Int.ediv_lt_of_lt_mul h2
      linarith
    linarith
  · apply Int.le_ediv_of_mul_le h2
    linarith

theorem advances_bounds {A : Int} (B k : Int) (hA : 0 < A) :
    2 * A * advances A B k ≤ 2 * B * k + A ∧
      2 * B * k + A < 2 * A * (advances A B k + 1) := by
  unfold advances
  have h2 : (0 : Int) < 2 * A := by linarith
  constructor
  · have := Int.ediv_mul_le (2 * B * k + A) (ne_of_gt h2)
    linarith
  · have := Int.lt_ediv_add_one_mul_self (2 * B * k + A) h2
    linarith

theorem loop_body_closedVars (f : Frame) (v0 : Vars) (k : Nat)
    (hA : 0 < f.aDiff) (hB0 : 0 ≤ f.bDiff) (hBA : f.bDiff ≤ f.aDiff) :
    loop_body f (closedVars f v0 k) = closedVars f v0 (k + 1) := by
  obtain ⟨hlo, hhi⟩ := advances_bounds f.bDiff (k : Int) hA
  have hk : (0 : Int) ≤ k := Int.ofNat_nonneg k
  by_cases hs : (closedVars f v0 k).sign ≥ 0
  · have hm : advances f.aDiff f.bDiff ((k + 1 : Nat) : Int)
        = advances f.aDiff f.bDiff k + 1 := by
      apply advances_eq_of_bounds hA
      · simp only [closedVars] at hs
        push_cast
        nlinarith
      · push_cast
        nlinarith
    simp only [loop_body, if_pos hs]
    simp only [closedVars, hm]
    push_cast
    congr 1 <;> ring
  · have hm : advances f.aDiff f.bDiff ((k + 1 : Nat) : Int)
        = advances f.aDiff f.bDiff k := by
      apply advances_eq_of_bounds hA
      · push_cast
        nlinarith
      · simp only [closedVars] at hs
        push_cast
        nlinarith
    simp only [loop_body, if_neg hs]
    simp only [closedVars, hm]
    push_cast
    congr 1 <;> ring

theorem iterate_closedVars (f : Frame) (v0 : Vars) (k : Nat)
    (hA : 0 < f.aDiff) (hB0 : 0 ≤ f.bDiff) (hBA : f.bDiff ≤ f.aDiff)
    (hsign : v0.sign = f.bDiff + f.bDiff - f.aDiff) :
    (loop_body f)^[k] v0 = closedVars f v0 k := by
  induction k with
  | zero =>
    have h0 : advances f.aDiff f.bDiff 0 = 0 := by
      apply advances_eq_of_bounds hA <;> linarith
    cases v0
    simp only [closedVars, Function.iterate_zero, id_eq] at *
    simp [h0, hsign]
    ring
  | succ k ih =>
    rw [Function.iterate_succ_apply', ih, loop_body_closedVars f v0 k hA hB0 hBA]

/-- The loop run from an initial state that satisfies what `setup` establishes. -/
theorem frame_run (f : Frame) (v0 : Vars) (n : Nat)
    (hA : f.aDiff = n) (hB0 : 0 ≤ f.bDiff) (hBA : f.bDiff ≤ f.aDiff)
    (hinc : f.aInc = 1 ∨ f.aInc = -1) (hterm : f.aTerm = v0.a + (n + 1) * f.aInc)
    (hsign : v0.sign = f.bDiff + f.bDiff - f.aDiff) (fuel : Nat) :
    while_loop f fuel v0 =
      if n + 1 ≤ fuel then
        some ((List.range (n + 1)).map fun j => deref_xy f (closedVars f v0 j))
      else none := by
  have hne : ∀ j, j < n + 1 → ((loop_body f)^[j] v0).a ≠ f.aTerm := by
    intro j hj heq
    rw [iterate_a, hterm] at heq
    have hj' : (j : Int) < n + 1 := by exact_mod_cast hj
    rcases hinc with h | h <;> rw [h] at heq <;> linarith
  have hend : ((loop_body f)^[n + 1] v0).a = f.aTerm := by
    rw [iterate_a, hterm]; push_cast; ring
  rw [while_loop_run f (n + 1) v0 hne hend fuel]
  by_cases hf : n + 1 ≤ fuel
  · simp only [if_pos hf]
    congr 1
    apply List.map_congr_left
    intro j hj
    have hjn : j < n + 1 := List.mem_range.mp hj
    rcases Nat.eq_zero_or_pos n with hn | hn
    · have hj0 : j = 0 := by omega
      subst hj0
      have hA0 : f.aDiff = 0 := by rw [hA, hn]; rfl
      have hBz : f.bDiff = 0 := by linarith
      cases v0
      simp [closedVars, advances, hA0, hBz, deref_xy]
    · have hApos : 0 < f.aDiff := by rw [hA]; exact_mod_cast hn
      rw [iterate_closedVars f v0 j hApos hB0 hBA hsign]
  · simp only [if_neg hf]

theorem ite_neg_eq_abs (d : Int) : (if d < 0 then -d else d) = |d| := by
  split_ifs with h
  · exact (abs_of_neg h).symm
  · exact (abs_of_nonneg (not_lt.mp h)).symm

theorem setup_shallow (x1 y1 x2 y2 : Int) (h : |y2 - y1| ≤ |x2 - x1|) :
    setup x1 y1 x2 y2 =
      ({ shallow := true, aDiff := |x2 - x1|, bDiff := |y2 - y1|, aInc := incOf (x2 - x1),
         bInc := incOf (y2 - y1), aTerm := x2 + incOf (x2 - x1) },
       { a := x1, b := y1, sign := |y2 - y1| + |y2 - y1| - |x2 - x1| }) := by
  have hs : |x2 - x1| - |y2 - y1| ≥ 0 := by linarith
  simp only [setup, ite_neg_eq_abs, incOf, hs, decide_True, if_true, decide_eq_true_eq]

theorem setup_steep (x1 y1 x2 y2 : Int) (h : ¬ |y2 - y1| ≤ |x2 - x1|) :
    setup x1 y1 x2 y2 =
      ({ shallow := false, aDiff := |y2 - y1|, bDiff := |x2 - x1|, aInc := incOf (y2 - y1),
         bInc := incOf (x2 - x1), aTerm := y2 + incOf (y2 - y1) },
       { a := y1, b := x1, sign := |x2 - x1| + |x2 - x1| - |y2 - y1| }) := by
  have hs : ¬ (|x2 - x1| - |y2 - y1| ≥ 0) := by
    intro hc; apply h; linarith
  simp only [setup, ite_neg_eq_abs, incOf, hs, decide_False, decide_eq_true_eq]
  simp

theorem incOf_cases (d : Int) : incOf d = 1 ∨ incOf d = -1 := by
  unfold incOf; split_ifs <;> simp

theorem abs_mul_incOf (d : Int) : |d| * incOf d = d := by
  unfold incOf
  split_ifs with h
  · rw [abs_of_nonneg h]; ring
  · rw [abs_of_neg (not_le.mp h)]; ring

theorem steps_cast (x1 y1 x2 y2 : Int) :
    ((steps x1 y1 x2 y2 : Nat) : Int) = max |x2 - x1| |y2 - y1| := by
  unfold steps
  rw [Nat.cast_max, Int.natCast_natAbs, Int.natCast_natAbs]

/-- The plotted sequence in closed form, together with the exact number of
loop iterations the call needs. -/
theorem render_eq (fuel : Nat) (r : SDL_Renderer) (x1 y1 x2 y2 : Int) :
    render_bresenham_line fuel (some r) x1 y1 x2 y2 =
      if steps x1 y1 x2 y2 + 1 ≤ fuel then
        some ((List.range (steps x1 y1 x2 y2 + 1)).map (linePoint x1 y1 x2 y2))
      else none := by
  have hcast := steps_cast x1 y1 x2 y2
  unfold render_bresenham_line
  simp only
  by_cases h : |y2 - y1| ≤ |x2 - x1|
  · rw [setup_shallow x1 y1 x2 y2 h]
    simp only
    rw [max_eq_left h] at hcast
    rw [frame_run _ _ (steps x1 y1 x2 y2) hcast.symm (abs_nonneg _) h (incOf_cases _)
      (by simp only; rw [hcast]; have := abs_mul_incOf (x2 - x1); linarith) rfl fuel]
    by_cases hf : steps x1 y1 x2 y2 + 1 ≤ fuel
    · simp only [if_pos hf]
      congr 1
      apply List.map_congr_left
      intro j _
      simp [deref_xy, closedVars, linePoint, h]
    · simp only [if_neg hf]
  · rw [setup_steep x1 y1 x2 y2 h]
    simp only
    have h' : |x2 - x1| ≤ |y2 - y1| := le_of_lt (not_le.mp h)
    rw [max_eq_right h'] at hcast
    rw [frame_run _ _ (steps x1 y1 x2 y2) hcast.symm (abs_nonneg _) h' (incOf_cases _)
      (by simp only; rw [hcast]; have := abs_mul_incOf (y2 - y1); linarith) rfl fuel]
    by_cases hf : steps x1 y1 x2 y2 + 1 ≤ fuel
    · simp only [if_pos hf]
      congr 1
      apply List.map_congr_left
      intro j _
      simp [deref_xy, closedVars, linePoint, h]
    · simp only [if_neg hf]

theorem plots_lineList (x1 y1 x2 y2 : Int) : Plots x1 y1 x2 y2 (lineList x1 y1 x2 y2) :=
  ⟨steps x1 y1 x2 y2 + 1, fun fuel r => render_eq fuel r x1 y1 x2 y2⟩

theorem plots_unique {x1 y1 x2 y2 : Int} {pts pts' : List Point}
    (h : Plots x1 y1 x2 y2 pts) (h' : Plots x1 y1 x2 y2 pts') : pts = pts' := by
  obtain ⟨n, hn⟩ := h
  obtain ⟨n', hn'⟩ := h'
  have e := hn (max n n') ⟨0⟩
  rw [hn' (max n n') ⟨0⟩, if_pos (le_max_left _ _), if_pos (le_max_right _ _)] at e
  exact (Option.some.inj e).symm

/-! ## Facts about the closed form -/

theorem advances_zero {A : Int} (B : Int) (hA : 0 ≤ A) : advances A B 0 = 0 := by
  rcases eq_or_lt_of_le hA with h | h
  · subst h; simp [advances]
  · apply advances_eq_of_bounds h <;> linarith

theorem advances_end {A B : Int} (hA : 0 ≤ A) (hB : 0 ≤ B) (hBA : B ≤ A) :
    advances A B A = B := by
  rcases eq_or_lt_of_le hA with h | h
  · subst h
    have : B = 0 := le_antisymm hBA hB
    subst this; simp [advances]
  · apply advances_eq_of_bounds h <;> nlinarith

theorem advances_flat {A : Int} (k : Int) (hA : 0 ≤ A) : advances A 0 k = 0 := by
  rcases eq_or_lt_of_le hA with h | h
  · subst h; simp [advances]
  · apply advances_eq_of_bounds h <;> linarith

theorem advances_diag {A : Int} (k : Int) (hA : 0 < A) : advances A A k = k := by
  apply advances_eq_of_bounds hA <;> nlinarith

theorem advances_nonneg {A B k : Int} (hA : 0 ≤ A) (hB : 0 ≤ B) (hk : 0 ≤ k) :
    0 ≤ advances A B k := by
  unfold advances
  apply Int.ediv_nonneg
  · have := mul_nonneg hB hk
    linarith
  · linarith

theorem linePoint_steps (x1 y1 x2 y2 : Int) :
    linePoint x1 y1 x2 y2 (steps x1 y1 x2 y2) = (x2, y2) := by
  have hcast := steps_cast x1 y1 x2 y2
  have hx := abs_mul_incOf (x2 - x1)
  have hy := abs_mul_incOf (y2 - y1)
  unfold linePoint
  split_ifs with h
  · rw [hcast, max_eq_left h, advances_end (abs_nonneg _) (abs_nonneg _) h, hx, hy]
    simp
  · have h' : |x2 - x1| ≤ |y2 - y1| := le_of_lt (not_le.mp h)
    rw [hcast, max_eq_right h', advances_end (abs_nonneg _) (abs_nonneg _) h', hx, hy]
    simp

theorem driving_linePoint (x1 y1 x2 y2 : Int) (k : Nat) :
    driving x1 y1 x2 y2 (linePoint x1 y1 x2 y2 k) =
      driving x1 y1 x2 y2 (x1, y1) +
        k * (if |y2 - y1| ≤ |x2 - x1| then incOf (x2 - x1) else incOf (y2 - y1)) := by
  unfold driving linePoint
  split_ifs <;> rfl

theorem lineList_length (x1 y1 x2 y2 : Int) :
    (lineList x1 y1 x2 y2).length = steps x1 y1 x2 y2 + 1 := by
  simp [lineList]

theorem lineList_getElem (x1 y1 x2 y2 : Int) (k : Nat)
    (hk : k < (lineList x1 y1 x2 y2).length) :
    (lineList x1 y1 x2 y2)[k] = linePoint x1 y1 x2 y2 k := by
  simp [lineList]

theorem drivingInc_cases (x1 y1 x2 y2 : Int) :
    drivingInc x1 y1 x2 y2 = 1 ∨ drivingInc x1 y1 x2 y2 = -1 := by
  unfold drivingInc; split_ifs <;> exact incOf_cases _

theorem secondaryInc_cases (x1 y1 x2 y2 : Int) :
    secondaryInc x1 y1 x2 y2 = 1 ∨ secondaryInc x1 y1 x2 y2 = -1 := by
  unfold secondaryInc; split_ifs <;> exact incOf_cases _

theorem driving_linePoint_inc (x1 y1 x2 y2 : Int) (k : Nat) :
    driving x1 y1 x2 y2 (linePoint x1 y1 x2 y2 k) =
      driving x1 y1 x2 y2 (x1, y1) + k * drivingInc x1 y1 x2 y2 :=
  driving_linePoint x1 y1 x2 y2 k

theorem secondary_linePoint (x1 y1 x2 y2 : Int) (k : Nat) :
    secondary x1 y1 x2 y2 (linePoint x1 y1 x2 y2 k) =
      secondary x1 y1 x2 y2 (x1, y1) +
        advances (max |x2 - x1| |y2 - y1|) (min |x2 - x1| |y2 - y1|) k *
          secondaryInc x1 y1 x2 y2 := by
  unfold secondary linePoint secondaryInc
  split_ifs with h
  · rw [max_eq_left h, min_eq_right h]
  · have h' : |x2 - x1| ≤ |y2 - y1| := le_of_lt (not_le.mp h)
    rw [max_eq_right h', min_eq_left h']

theorem driving_end (x1 y1 x2 y2 : Int) :
    driving x1 y1 x2 y2 (x2, y2) =
      driving x1 y1 x2 y2 (x1, y1) + steps x1 y1 x2 y2 * drivingInc x1 y1 x2 y2 := by
  rw [← driving_linePoint_inc, linePoint_steps]

theorem steps_swap (x1 y1 x2 y2 : Int) : steps x2 y2 x1 y1 = steps x1 y1 x2 y2 := by
  unfold steps
  rw [← Int.natAbs_neg (x1 - x2), ← Int.natAbs_neg (y1 - y2), neg_sub, neg_sub]

theorem lineList_reverse_eq_iff (x1 y1 x2 y2 : Int) :
    (lineList x2 y2 x1 y1).reverse = lineList x1 y1 x2 y2 ↔
      ∀ k : Nat, k ≤ steps x1 y1 x2 y2 →
        linePoint x2 y2 x1 y1 (steps x1 y1 x2 y2 - k) = linePoint x1 y1 x2 y2 k := by
  have hrev : (List.range (steps x1 y1 x2 y2 + 1)).reverse =
      (List.range (steps x1 y1 x2 y2 + 1)).map (fun k => steps x1 y1 x2 y2 - k) := by
    rw [List.range_eq_range', List.reverse_range', ← List.range_eq_range']
    apply List.map_congr_left
    intro k _
    omega
  unfold lineList
  rw [steps_swap, ← List.map_reverse, hrev, List.map_map, List.map_inj_left]
  constructor
  · intro h k hk
    exact h k (List.mem_range.mpr (Nat.lt_succ_of_le hk))
  · intro h k hk
    exact h k (Nat.le_of_lt_succ (List.mem_range.mp hk))

theorem incOf_neg {d : Int} (h : d ≠ 0) : incOf (-d) = -incOf d := by
  unfold incOf
  split_ifs <;> first | rfl | omega

/-- An exact half-pixel tie at driving step `k` is what breaks the symmetry of
the rounding: the advances before step `k` and before step `A - k` add up to
`B` exactly when `2*B*k + A` is not a multiple of `2*A`. -/
theorem advances_add_reverse {A : Int} (B k : Int) (hA : 0 < A) :
    advances A B k + advances A B (A - k) = B ↔ ¬ (2 * A ∣ 2 * B * k + A) := by
  obtain ⟨hlo, hhi⟩ := advances_bounds B k hA
  constructor
  · rintro hsum ⟨q, hq⟩
    have hm : advances A B k = q := by
      apply advances_eq_of_bounds hA <;> nlinarith
    have hr : advances A B (A - k) = B - q + 1 := by
      apply advances_eq_of_bounds hA <;> nlinarith
    rw [hm, hr] at hsum
    linarith
  · intro hnd
    have hne : 2 * A * advances A B k ≠ 2 * B * k + A := by
      intro e
      exact hnd ⟨advances A B k, e.symm⟩
    have hlt : 2 * A * advances A B k < 2 * B * k + A := lt_of_le_of_ne hlo hne
    have hr : advances A B (A - k) = B - advances A B k := by
      apply advances_eq_of_bounds hA <;> nlinarith
    rw [hr]; ring

theorem driving_reverse (p q k : Int) (hk0 : 0 ≤ k) (hk : k ≤ |q - p|) :
    q + (|q - p| - k) * incOf (p - q) = p + k * incOf (q - p) := by
  have hq := abs_mul_incOf (q - p)
  by_cases hd : q - p = 0
  · have hz : |q - p| = 0 := by rw [hd]; simp
    have hk' : k = 0 := by rw [hz] at hk; omega
    rw [hz, hk']
    linarith
  · rw [show p - q = -(q - p) by ring, incOf_neg hd]
    linear_combination (-1 : Int) * hq

theorem secondary_reverse (p q m m' : Int) (hflat : q - p = 0 → m = 0 ∧ m' = 0) :
    q + m' * incOf (p - q) = p + m * incOf (q - p) ↔ m + m' = |q - p| := by
  have hq := abs_mul_incOf (q - p)
  by_cases hd : q - p = 0
  · obtain ⟨h1, h2⟩ := hflat hd
    have hz : |q - p| = 0 := by rw [hd]; simp
    rw [hz, h1, h2]
    constructor
    · intro _; simp
    · intro _; linarith
  · rw [show p - q = -(q - p) by ring, incOf_neg hd]
    rcases incOf_cases (q - p) with h | h <;> rw [h] at hq ⊢ <;> constructor <;> intro e <;>
      linarith

theorem linePoint_reverse_iff (x1 y1 x2 y2 : Int) (k : Nat) (hk : k ≤ steps x1 y1 x2 y2) :
    linePoint x2 y2 x1 y1 (steps x1 y1 x2 y2 - k) = linePoint x1 y1 x2 y2 k ↔
      advances (max |x2 - x1| |y2 - y1|) (min |x2 - x1| |y2 - y1|) k +
        advances (max |x2 - x1| |y2 - y1|) (min |x2 - x1| |y2 - y1|)
          (max |x2 - x1| |y2 - y1| - k) = min |x2 - x1| |y2 - y1| := by
  have hcast := steps_cast x1 y1 x2 y2
  have hsub : ((steps x1 y1 x2 y2 - k : Nat) : Int) = max |x2 - x1| |y2 - y1| - k := by
    rw [Nat.cast_sub hk, hcast]
  have hk0 : (0 : Int) ≤ k := Int.ofNat_nonneg k
  have hkn : (k : Int) ≤ max |x2 - x1| |y2 - y1| := by rw [← hcast]; exact_mod_cast hk
  unfold linePoint
  rw [abs_sub_comm y1 y2, abs_sub_comm x1 x2, hsub]
  split_ifs with h
  · rw [max_eq_left h, min_eq_right h] at *
    rw [Prod.mk.injEq]
    have hdrv := driving_reverse x1 x2 k hk0 hkn
    have hsec := secondary_reverse y1 y2 (advances |x2 - x1| |y2 - y1| k)
      (advances |x2 - x1| |y2 - y1| (|x2 - x1| - k)) (by
        intro hd
        have hz : |y2 - y1| = 0 := by rw [hd]; simp
        rw [hz]
        exact ⟨advances_flat _ (abs_nonneg _), advances_flat _ (abs_nonneg _)⟩)
    rw [← hsec]
    constructor
    · intro e; exact e.2
    · intro e; exact ⟨hdrv, e⟩
  · have h' : |x2 - x1| ≤ |y2 - y1| := le_of_lt (not_le.mp h)
    rw [max_eq_right h', min_eq_left h'] at *
    rw [Prod.mk.injEq]
    have hdrv := driving_reverse y1 y2 k hk0 hkn
    have hsec := secondary_reverse x1 x2 (advances |y2 - y1| |x2 - x1| k)
      (advances |y2 - y1| |x2 - x1| (|y2 - y1| - k)) (by
        intro hd
        have hz : |x2 - x1| = 0 := by rw [hd]; simp
        rw [hz]
        exact ⟨advances_flat _ (abs_nonneg _), advances_flat _ (abs_nonneg _)⟩)
    rw [← hsec]
    constructor
    · intro e; exact e.1
    · intro e; exact ⟨e, hdrv⟩

/-- The reverse rasterization is the reverse sequence exactly when no interior
driving step is an exact half-pixel tie. -/
theorem lineList_reverse_iff_no_tie (x1 y1 x2 y2 : Int) :
    (lineList x2 y2 x1 y1).reverse = lineList x1 y1 x2 y2 ↔
      ∀ k : Int, 0 < k → k < max |x2 - x1| |y2 - y1| →
        ¬ (2 * max |x2 - x1| |y2 - y1| ∣
            2 * min |x2 - x1| |y2 - y1| * k + max |x2 - x1| |y2 - y1|) := by
  have hcast := steps_cast x1 y1 x2 y2
  have hAnn : (0 : Int) ≤ max |x2 - x1| |y2 - y1| := le_max_of_le_left (abs_nonneg _)
  have hBnn : (0 : Int) ≤ min |x2 - x1| |y2 - y1| := le_min (abs_nonneg _) (abs_nonneg _)
  have hBA : min |x2 - x1| |y2 - y1| ≤ max |x2 - x1| |y2 - y1| :=
    le_trans (min_le_left _ _) (le_max_left _ _)
  rw [lineList_reverse_eq_iff]
  constructor
  · intro h k hk0 hkA
    have hkn : k.toNat ≤ steps x1 y1 x2 y2 := by
      have : ((k.toNat : Nat) : Int) ≤ steps x1 y1 x2 y2 := by
        rw [Int.toNat_of_nonneg (le_of_lt hk0), hcast]; exact le_of_lt hkA
      exact_mod_cast this
    have e := (linePoint_reverse_iff x1 y1 x2 y2 k.toNat hkn).mp (h k.toNat hkn)
    rw [Int.toNat_of_nonneg (le_of_lt hk0)] at e
    exact (advances_add_reverse _ k (lt_trans hk0 hkA)).mp e
  · intro h k hk
    rw [linePoint_reverse_iff x1 y1 x2 y2 k hk]
    have hkn : (k : Int) ≤ max |x2 - x1| |y2 - y1| := by rw [← hcast]; exact_mod_cast hk
    have hk0 : (0 : Int) ≤ k := Int.ofNat_nonneg k
    rcases eq_or_lt_of_le hk0 with hz | hpos
    · rw [← hz, sub_zero, advances_zero _ hAnn, advances_end hAnn hBnn hBA, zero_add]
    · rcases eq_or_lt_of_le hkn with he | hlt
      · rw [he, sub_self, advances_zero _ hAnn, advances_end hAnn hBnn hBA, add_zero]
      · exact (advances_add_reverse _ k (lt_trans hpos hlt)).mpr (h k hpos hlt)

/-! ## Mirroring and transposing -/

theorem mirror_term (s d m : Int) (hd : 0 ≤ d) (hs : s = 1 ∨ s = -1) (hz : d = 0 → m = 0) :
    m * incOf (s * d) = s * m := by
  rcases eq_or_lt_of_le hd with h0 | hpos
  · rw [hz h0.symm]; simp
  · unfold incOf
    rcases hs with h | h <;> rw [h] <;> split_ifs <;> omega

theorem linePoint_mirror (x1 y1 dx dy sx sy : Int) (hdx : 0 ≤ dx) (hdy : 0 ≤ dy)
    (hsx : sx = 1 ∨ sx = -1) (hsy : sy = 1 ∨ sy = -1) (k : Nat)
    (hk : (k : Int) ≤ max dx dy) :
    linePoint x1 y1 (x1 + sx * dx) (y1 + sy * dy) k =
      (x1 + sx * (linePoint 0 0 dx dy k).1, y1 + sy * (linePoint 0 0 dx dy k).2) := by
  have ax : |x1 + sx * dx - x1| = dx := by
    rw [add_sub_cancel_left, abs_mul, abs_of_nonneg hdx]
    rcases hsx with h | h <;> rw [h] <;> simp
  have ay : |y1 + sy * dy - y1| = dy := by
    rw [add_sub_cancel_left, abs_mul, abs_of_nonneg hdy]
    rcases hsy with h | h <;> rw [h] <;> simp
  have i1 : incOf dx = 1 := by unfold incOf; rw [if_pos hdx]
  have i2 : incOf dy = 1 := by unfold incOf; rw [if_pos hdy]
  unfold linePoint
  rw [ax, ay, sub_zero, sub_zero, abs_of_nonneg hdx, abs_of_nonneg hdy, i1, i2,
    add_sub_cancel_left, add_sub_cancel_left]
  split_ifs with h
  · rw [max_eq_left h] at hk
    have e1 := mirror_term sx dx k hdx hsx (by intro hz; rw [hz] at hk; omega)
    have e2 := mirror_term sy dy (advances dx dy k) hdy hsy
      (by intro hz; rw [hz]; exact advances_flat _ hdx)
    simp only [zero_add, mul_one]
    rw [e1, e2]
  · have h' : dx ≤ dy := le_of_lt (not_le.mp h)
    rw [max_eq_right h'] at hk
    have e1 := mirror_term sy dy k hdy hsy (by intro hz; rw [hz] at hk; omega)
    have e2 := mirror_term sx dx (advances dy dx k) hdx hsx
      (by intro hz; rw [hz]; exact advances_flat _ hdy)
    simp only [zero_add, mul_one]
    rw [e1, e2]

theorem lineList_mirror (x1 y1 dx dy sx sy : Int) (hdx : 0 ≤ dx) (hdy : 0 ≤ dy)
    (hsx : sx = 1 ∨ sx = -1) (hsy : sy = 1 ∨ sy = -1) :
    lineList x1 y1 (x1 + sx * dx) (y1 + sy * dy) =
      (lineList 0 0 dx dy).map (fun p => (x1 + sx * p.1, y1 + sy * p.2)) := by
  have ax : (x1 + sx * dx - x1).natAbs = dx.natAbs := by
    rw [add_sub_cancel_left, Int.natAbs_mul]
    rcases hsx with h | h <;> rw [h] <;> simp
  have ay : (y1 + sy * dy - y1).natAbs = dy.natAbs := by
    rw [add_sub_cancel_left, Int.natAbs_mul]
    rcases hsy with h | h <;> rw [h] <;> simp
  have hst : steps x1 y1 (x1 + sx * dx) (y1 + sy * dy) = steps 0 0 dx dy := by
    unfold steps
    rw [ax, ay, sub_zero, sub_zero]
  have hcast := steps_cast 0 0 dx dy
  rw [sub_zero, sub_zero, abs_of_nonneg hdx, abs_of_nonneg hdy] at hcast
  unfold lineList
  rw [hst, List.map_map]
  apply List.map_congr_left
  intro k hk
  have hk' : k ≤ steps 0 0 dx dy := Nat.le_of_lt_succ (List.mem_range.mp hk)
  have hkz : (k : Int) ≤ max dx dy := by rw [← hcast]; exact_mod_cast hk'
  exact linePoint_mirror x1 y1 dx dy sx sy hdx hdy hsx hsy k hkz

theorem steps_transpose (x1 y1 x2 y2 : Int) : steps y1 x1 y2 x2 = steps x1 y1 x2 y2 := by
  unfold steps
  exact max_comm _ _

theorem linePoint_transpose (x1 y1 x2 y2 : Int) (k : Nat) (hk : k ≤ steps x1 y1 x2 y2) :
    linePoint y1 x1 y2 x2 k = Prod.swap (linePoint x1 y1 x2 y2 k) := by
  have hcast := steps_cast x1 y1 x2 y2
  have hkn : (k : Int) ≤ max |x2 - x1| |y2 - y1| := by rw [← hcast]; exact_mod_cast hk
  have hk0 : (0 : Int) ≤ k := Int.ofNat_nonneg k
  unfold linePoint
  rcases lt_trichotomy |y2 - y1| |x2 - x1| with hlt | heq | hgt
  · rw [if_neg (not_le.mpr hlt), if_pos (le_of_lt hlt)]
    rfl
  · rw [if_pos (le_of_eq heq.symm), if_pos (le_of_eq heq), heq]
    rw [heq, max_self] at hkn
    have hadv : advances |x2 - x1| |x2 - x1| k = k := by
      rcases eq_or_lt_of_le (abs_nonneg (x2 - x1)) with hz | hpos
      · rw [← hz] at hkn ⊢
        have : (k : Int) = 0 := le_antisymm hkn hk0
        rw [this]
        simp [advances]
      · exact advances_diag _ hpos
    rw [hadv]
    rfl
  · rw [if_pos (le_of_lt hgt), if_neg (not_le.mpr hgt)]
    rfl

theorem lineList_transpose (x1 y1 x2 y2 : Int) :
    lineList y1 x1 y2 x2 = (lineList x1 y1 x2 y2).map Prod.swap := by
  unfold lineList
  rw [steps_transpose, List.map_map]
  apply List.map_congr_left
  intro k hk
  exact linePoint_transpose x1 y1 x2 y2 k (Nat.le_of_lt_succ (List.mem_range.mp hk))

/-! ## What `setup` establishes -/

theorem setup_aInc_cases (x1 y1 x2 y2 : Int) :
    (setup x1 y1 x2 y2).1.aInc = 1 ∨ (setup x1 y1 x2 y2).1.aInc = -1 := by
  by_cases h : |y2 - y1| ≤ |x2 - x1|
  · rw [setup_shallow x1 y1 x2 y2 h]; exact incOf_cases _
  · rw [setup_steep x1 y1 x2 y2 h]; exact incOf_cases _

theorem setup_aTerm (x1 y1 x2 y2 : Int) :
    (setup x1 y1 x2 y2).1.aTerm =
      (setup x1 y1 x2 y2).2.a + (max |x2 - x1| |y2 - y1| + 1) * (setup x1 y1 x2 y2).1.aInc := by
  by_cases h : |y2 - y1| ≤ |x2 - x1|
  · rw [setup_shallow x1 y1 x2 y2 h, max_eq_left h]
    have := abs_mul_incOf (x2 - x1)
    simp only
    linarith
  · have h' : |x2 - x1| ≤ |y2 - y1| := le_of_lt (not_le.mp h)
    rw [setup_steep x1 y1 x2 y2 h, max_eq_right h']
    have := abs_mul_incOf (y2 - y1)
    simp only
    linarith

theorem setup_aInc (x1 y1 x2 y2 : Int) :
    (setup x1 y1 x2 y2).1.aInc = drivingInc x1 y1 x2 y2 := by
  unfold drivingInc
  by_cases h : |y2 - y1| ≤ |x2 - x1|
  · rw [setup_shallow x1 y1 x2 y2 h, if_pos h]
  · rw [setup_steep x1 y1 x2 y2 h, if_neg h]

theorem setup_bInc (x1 y1 x2 y2 : Int) :
    (setup x1 y1 x2 y2).1.bInc = secondaryInc x1 y1 x2 y2 := by
  unfold secondaryInc
  by_cases h : |y2 - y1| ≤ |x2 - x1|
  · rw [setup_shallow x1 y1 x2 y2 h, if_pos h]
  · rw [setup_steep x1 y1 x2 y2 h, if_neg h]

theorem incOf_eq_sign {d : Int} (h : d ≠ 0) : incOf d = Int.sign d := by
  unfold incOf
  split_ifs with hd
  · have : 0 < d := lt_of_le_of_ne hd (Ne.symm h)
    rw [Int.sign_eq_one_of_pos this]
  · rw [Int.sign_eq_neg_one_of_neg (not_le.mp hd)]

/-- A product `m * incOf d` only depends on the sign of `d` when `m` vanishes
for `d = 0`. -/
theorem mul_incOf_eq_mul_sign (m d : Int) (hz : d = 0 → m = 0) :
    m * incOf d = m * Int.sign d := by
  by_cases hd : d = 0
  · rw [hz hd]; simp
  · rw [incOf_eq_sign hd]

/-! ## Axis-aligned and diagonal segments -/

theorem cast_eq_zero_of_le_natAbs {k : Nat} {d : Int} (hk : k ≤ d.natAbs) (hd : d = 0) :
    (k : Int) = 0 := by
  subst hd
  simp at hk
  simp [hk]

theorem lineList_horizontal (x1 y x2 : Int) :
    lineList x1 y x2 y =
      (List.range ((x2 - x1).natAbs + 1)).map
        (fun k : Nat => (x1 + k * Int.sign (x2 - x1), y)) := by
  have hst : steps x1 y x2 y = (x2 - x1).natAbs := by simp [steps]
  unfold lineList
  rw [hst]
  apply List.map_congr_left
  intro k hk
  have hk' : k ≤ (x2 - x1).natAbs := Nat.le_of_lt_succ (List.mem_range.mp hk)
  unfold linePoint
  rw [sub_self, abs_zero, if_pos (abs_nonneg _), advances_flat _ (abs_nonneg _), zero_mul,
    add_zero, mul_incOf_eq_mul_sign _ _ (cast_eq_zero_of_le_natAbs hk')]

theorem lineList_vertical (x y1 y2 : Int) :
    lineList x y1 x y2 =
      (List.range ((y2 - y1).natAbs + 1)).map
        (fun k : Nat => (x, y1 + k * Int.sign (y2 - y1))) := by
  have hst : steps x y1 x y2 = (y2 - y1).natAbs := by simp [steps]
  unfold lineList
  rw [hst]
  apply List.map_congr_left
  intro k hk
  have hk' : k ≤ (y2 - y1).natAbs := Nat.le_of_lt_succ (List.mem_range.mp hk)
  unfold linePoint
  rw [sub_self, abs_zero]
  by_cases hd : y2 - y1 = 0
  · have hk0 : (k : Int) = 0 := cast_eq_zero_of_le_natAbs hk' hd
    rw [hd, abs_zero, if_pos (le_refl _), hk0]
    simp [advances]
  · have hpos : ¬ |y2 - y1| ≤ 0 := by
      intro hc
      exact hd (abs_eq_zero.mp (le_antisymm hc (abs_nonneg _)))
    rw [if_neg hpos, advances_flat _ (abs_nonneg _), zero_mul, add_zero, incOf_eq_sign hd]

theorem lineList_diagonal (x1 y1 x2 y2 : Int) (h : |x2 - x1| = |y2 - y1|) :
    lineList x1 y1 x2 y2 =
      (List.range ((x2 - x1).natAbs + 1)).map
        (fun k : Nat => (x1 + k * Int.sign (x2 - x1), y1 + k * Int.sign (y2 - y1))) := by
  have hn : (y2 - y1).natAbs = (x2 - x1).natAbs := by
    have : ((y2 - y1).natAbs : Int) = ((x2 - x1).natAbs : Int) := by
      rw [Int.natCast_natAbs, Int.natCast_natAbs, h]
    exact_mod_cast this
  have hst : steps x1 y1 x2 y2 = (x2 - x1).natAbs := by simp [steps, hn]
  unfold lineList
  rw [hst]
  apply List.map_congr_left
  intro k hk
  have hk' : k ≤ (x2 - x1).natAbs := Nat.le_of_lt_succ (List.mem_range.mp hk)
  have hky : k ≤ (y2 - y1).natAbs := by rw [hn]; exact hk'
  unfold linePoint
  rw [if_pos (le_of_eq h.symm), ← h, mul_incOf_eq_mul_sign _ _ (cast_eq_zero_of_le_natAbs hk')]
  have hadv : advances |x2 - x1| |x2 - x1| k = k := by
    rcases eq_or_lt_of_le (abs_nonneg (x2 - x1)) with hz | hpos
    · have hd : x2 - x1 = 0 := abs_eq_zero.mp hz.symm
      rw [cast_eq_zero_of_le_natAbs hk' hd, ← hz]
      simp [advances]
    · exact advances_diag _ hpos
  rw [hadv, mul_incOf_eq_mul_sign _ _ (cast_eq_zero_of_le_natAbs hky)]

/-! ## Steps between consecutive points, bounding box, translation -/

theorem advances_succ_cases {A B : Int} (k : Int) (hA : 0 < A) (hB : 0 ≤ B) (hBA : B ≤ A) :
    advances A B (k + 1) = advances A B k ∨ advances A B (k + 1) = advances A B k + 1 := by
  obtain ⟨hlo, hhi⟩ := advances_bounds B k hA
  by_cases hs : 2 * A * (advances A B k + 1) ≤ 2 * B * (k + 1) + A
  · right
    apply advances_eq_of_bounds hA
    · exact hs
    · nlinarith
  · left
    apply advances_eq_of_bounds hA
    · nlinarith
    · exact not_le.mp hs

theorem advances_le_end {A B : Int} (k : Int) (hA : 0 ≤ A) (hB : 0 ≤ B)
    (hk0 : 0 ≤ k) (hk : k ≤ A) : advances A B k ≤ B := by
  rcases eq_or_lt_of_le hA with hz | hpos
  · have hk' : k = 0 := by rw [← hz] at hk; exact le_antisymm hk hk0
    rw [hk', advances_zero _ hA]
    exact hB
  · obtain ⟨hlo, -⟩ := advances_bounds B k hpos
    by_contra hc
    have hc' : B + 1 ≤ advances A B k := by omega
    have h1 : 2 * A * (B + 1) ≤ 2 * A * advances A B k :=
      mul_le_mul_of_nonneg_left hc' (by linarith)
    have h2 : 2 * B * k ≤ 2 * B * A := mul_le_mul_of_nonneg_left hk (by linarith)
    nlinarith

theorem secondary_end (x1 y1 x2 y2 : Int) :
    secondary x1 y1 x2 y2 (x2, y2) =
      secondary x1 y1 x2 y2 (x1, y1) +
        min |x2 - x1| |y2 - y1| * secondaryInc x1 y1 x2 y2 := by
  have hAnn : (0 : Int) ≤ max |x2 - x1| |y2 - y1| := le_max_of_le_left (abs_nonneg _)
  have hBnn : (0 : Int) ≤ min |x2 - x1| |y2 - y1| := le_min (abs_nonneg _) (abs_nonneg _)
  have hBA : min |x2 - x1| |y2 - y1| ≤ max |x2 - x1| |y2 - y1| :=
    le_trans (min_le_left _ _) (le_max_left _ _)
  have h := secondary_linePoint x1 y1 x2 y2 (steps x1 y1 x2 y2)
  rw [linePoint_steps, steps_cast, advances_end hAnn hBnn hBA] at h
  exact h

theorem lineList_getElem?_eq_some (x1 y1 x2 y2 : Int) (k : Nat) (p : Point)
    (h : (lineList x1 y1 x2 y2)[k]? = some p) :
    k ≤ steps x1 y1 x2 y2 ∧ p = linePoint x1 y1 x2 y2 k := by
  obtain ⟨hk, hp⟩ := List.getElem?_eq_some.mp h
  rw [lineList_getElem] at hp
  rw [lineList_length] at hk
  exact ⟨Nat.le_of_lt_succ hk, hp.symm⟩

theorem mem_lineList (x1 y1 x2 y2 : Int) (p : Point) (h : p ∈ lineList x1 y1 x2 y2) :
    ∃ k : Nat, k ≤ steps x1 y1 x2 y2 ∧ p = linePoint x1 y1 x2 y2 k := by
  unfold lineList at h
  obtain ⟨k, hk, hp⟩ := List.mem_map.mp h
  exact ⟨k, Nat.le_of_lt_succ (List.mem_range.mp hk), hp.symm⟩

theorem between_endpoints (p q m : Int) (h0 : 0 ≤ m) (h1 : m ≤ |q - p|) :
    min p q ≤ p + m * incOf (q - p) ∧ p + m * incOf (q - p) ≤ max p q := by
  unfold incOf
  split_ifs with hd
  · rw [abs_of_nonneg hd] at h1
    simp only [min_le_iff, le_max_iff]
    constructor
    · left; linarith
    · right; linarith
  · rw [abs_of_neg (not_le.mp hd)] at h1
    simp only [min_le_iff, le_max_iff]
    constructor
    · right; linarith
    · left; linarith

theorem linePoint_in_box (x1 y1 x2 y2 : Int) (k : Nat) (hk : k ≤ steps x1 y1 x2 y2) :
    min x1 x2 ≤ (linePoint x1 y1 x2 y2 k).1 ∧ (linePoint x1 y1 x2 y2 k).1 ≤ max x1 x2 ∧
    min y1 y2 ≤ (linePoint x1 y1 x2 y2 k).2 ∧ (linePoint x1 y1 x2 y2 k).2 ≤ max y1 y2 := by
  have hcast := steps_cast x1 y1 x2 y2
  have hkn : (k : Int) ≤ max |x2 - x1| |y2 - y1| := by rw [← hcast]; exact_mod_cast hk
  have hk0 : (0 : Int) ≤ k := Int.ofNat_nonneg k
  unfold linePoint
  split_ifs with h
  · rw [max_eq_left h] at hkn
    have hx := between_endpoints x1 x2 k hk0 hkn
    have hy := between_endpoints y1 y2 (advances |x2 - x1| |y2 - y1| k)
      (advances_nonneg (abs_nonneg _) (abs_nonneg _) hk0)
      (advances_le_end _ (abs_nonneg _) (abs_nonneg _) hk0 hkn)
    exact ⟨hx.1, hx.2, hy.1, hy.2⟩
  · have h' : |x2 - x1| ≤ |y2 - y1| := le_of_lt (not_le.mp h)
    rw [max_eq_right h'] at hkn
    have hy := between_endpoints y1 y2 k hk0 hkn
    have hx := between_endpoints x1 x2 (advances |y2 - y1| |x2 - x1| k)
      (advances_nonneg (abs_nonneg _) (abs_nonneg _) hk0)
      (advances_le_end _ (abs_nonneg _) (abs_nonneg _) hk0 hkn)
    exact ⟨hx.1, hx.2, hy.1, hy.2⟩

theorem lineList_translate (x1 y1 x2 y2 tx ty : Int) :
    lineList (x1 + tx) (y1 + ty) (x2 + tx) (y2 + ty) =
      (lineList x1 y1 x2 y2).map (fun p => (p.1 + tx, p.2 + ty)) := by
  have hst : steps (x1 + tx) (y1 + ty) (x2 + tx) (y2 + ty) = steps x1 y1 x2 y2 := by
    unfold steps
    rw [add_sub_add_right_eq_sub, add_sub_add_right_eq_sub]
  unfold lineList
  rw [hst, List.map_map]
  apply List.map_congr_left
  intro k _
  simp only [linePoint, add_sub_add_right_eq_sub, Function.comp_apply]
  split_ifs <;> apply Prod.ext <;> simp only <;> ring

theorem abs_mul_unit (t c : Int) (hc : c = 1 ∨ c = -1) : |t * c| = |t| := by
  rcases hc with h | h <;> rw [h] <;> simp

theorem setup_shallow_iff (x1 y1 x2 y2 : Int) :
    (setup x1 y1 x2 y2).1.shallow = true ↔ |y2 - y1| ≤ |x2 - x1| := by
  by_cases h : |y2 - y1| ≤ |x2 - x1|
  · rw [setup_shallow x1 y1 x2 y2 h]; simp [h]
  · rw [setup_steep x1 y1 x2 y2 h]; simp [h]

theorem setup_aDiff (x1 y1 x2 y2 : Int) :
    (setup x1 y1 x2 y2).1.aDiff = max |x2 - x1| |y2 - y1| := by
  by_cases h : |y2 - y1| ≤ |x2 - x1|
  · rw [setup_shallow x1 y1 x2 y2 h, max_eq_left h]
  · rw [setup_steep x1 y1 x2 y2 h, max_eq_right (le_of_lt (not_le.mp h))]

theorem setup_bDiff (x1 y1 x2 y2 : Int) :
    (setup x1 y1 x2 y2).1.bDiff = min |x2 - x1| |y2 - y1| := by
  by_cases h : |y2 - y1| ≤ |x2 - x1|
  · rw [setup_shallow x1 y1 x2 y2 h, min_eq_right h]
  · rw [setup_steep x1 y1 x2 y2 h, min_eq_left (le_of_lt (not_le.mp h))]

theorem abs_sub_mul_unit (t0 u v c : Int) (hc : c = 1 ∨ c = -1) (h : v ≤ u) :
    |t0 + u * c - (t0 + v * c)| = u - v := by
  have e : t0 + u * c - (t0 + v * c) = (u - v) * c := by ring
  rw [e, abs_mul_unit _ _ hc]
  exact abs_of_nonneg (by linarith)

/-- The step from the `k`-th to the `(k+1)`-th point of the closed form. -/
theorem linePoint_step (x1 y1 x2 y2 : Int) (k : Nat) (hk : k + 1 ≤ steps x1 y1 x2 y2) :
    driving x1 y1 x2 y2 (linePoint x1 y1 x2 y2 (k + 1)) =
        driving x1 y1 x2 y2 (linePoint x1 y1 x2 y2 k) + drivingInc x1 y1 x2 y2 ∧
    |driving x1 y1 x2 y2 (x2, y2) - driving x1 y1 x2 y2 (linePoint x1 y1 x2 y2 (k + 1))| =
        |driving x1 y1 x2 y2 (x2, y2) - driving x1 y1 x2 y2 (linePoint x1 y1 x2 y2 k)| - 1 ∧
    (secondary x1 y1 x2 y2 (linePoint x1 y1 x2 y2 (k + 1)) =
        secondary x1 y1 x2 y2 (linePoint x1 y1 x2 y2 k) ∨
      secondary x1 y1 x2 y2 (linePoint x1 y1 x2 y2 (k + 1)) =
        secondary x1 y1 x2 y2 (linePoint x1 y1 x2 y2 k) + secondaryInc x1 y1 x2 y2) ∧
    |secondary x1 y1 x2 y2 (x2, y2) - secondary x1 y1 x2 y2 (linePoint x1 y1 x2 y2 (k + 1))| ≤
        |secondary x1 y1 x2 y2 (x2, y2) - secondary x1 y1 x2 y2 (linePoint x1 y1 x2 y2 k)| := by
  have hcast := steps_cast x1 y1 x2 y2
  have hAnn : (0 : Int) ≤ max |x2 - x1| |y2 - y1| := le_max_of_le_left (abs_nonneg _)
  have hBnn : (0 : Int) ≤ min |x2 - x1| |y2 - y1| := le_min (abs_nonneg _) (abs_nonneg _)
  have hBA : min |x2 - x1| |y2 - y1| ≤ max |x2 - x1| |y2 - y1| :=
    le_trans (min_le_left _ _) (le_max_left _ _)
  have hk0 : (0 : Int) ≤ k := Int.ofNat_nonneg k
  have hk1 : (k : Int) + 1 ≤ max |x2 - x1| |y2 - y1| := by
    rw [← hcast]; exact_mod_cast hk
  have hApos : 0 < max |x2 - x1| |y2 - y1| := by linarith
  have hm1 := advances_le_end (B := min |x2 - x1| |y2 - y1|) ((k : Int) + 1) hAnn hBnn
    (by linarith) hk1
  have hm0 := advances_le_end (B := min |x2 - x1| |y2 - y1|) (k : Int) hAnn hBnn hk0
    (by linarith)
  have hcases := advances_succ_cases (k : Int) hApos hBnn hBA
  have hc := drivingInc_cases x1 y1 x2 y2
  have he := secondaryInc_cases x1 y1 x2 y2
  rw [driving_linePoint_inc, driving_linePoint_inc, secondary_linePoint, secondary_linePoint,
    driving_end, secondary_end, hcast]
  push_cast
  rw [abs_sub_mul_unit _ _ _ _ hc hk1, abs_sub_mul_unit _ _ _ _ hc (by linarith),
    abs_sub_mul_unit _ _ _ _ he hm1, abs_sub_mul_unit _ _ _ _ he hm0]
  refine ⟨by ring, by ring, ?_, ?_⟩
  · rcases hcases with h | h
    · left; rw [h]
    · right; rw [h]; ring
  · rcases hcases with h | h
    · rw [h]
    · rw [h]; linarith

/-! ## The decision variable -/

theorem advanceCount_le (f : Frame) (v : Vars) (k : Nat) : advanceCount f v k ≤ k := by
  induction k with
  | zero => exact Nat.le_refl 0
  | succ k ih =>
    unfold advanceCount
    split_ifs <;> omega

/-- The variables `sign` and `b` after `k` iterations, in terms of the number
of advances; holds for every frame and start state. -/
theorem iterate_sign_b (f : Frame) (v : Vars) (k : Nat) :
    ((loop_body f)^[k] v).sign =
        v.sign + 2 * f.bDiff * k - 2 * f.aDiff * advanceCount f v k ∧
      ((loop_body f)^[k] v).b = v.b + advanceCount f v k * f.bInc := by
  induction k with
  | zero => simp [advanceCount]
  | succ k ih =>
    obtain ⟨ihs, ihb⟩ := ih
    rw [Function.iterate_succ_apply']
    by_cases hs : ((loop_body f)^[k] v).sign ≥ 0
    · have e1 : (loop_body f ((loop_body f)^[k] v)).sign =
          ((loop_body f)^[k] v).sign + (f.bDiff + f.bDiff - f.aDiff - f.aDiff) := by
        simp only [loop_body, if_pos hs]
      have e2 : (loop_body f ((loop_body f)^[k] v)).b = ((loop_body f)^[k] v).b + f.bInc := by
        simp only [loop_body, if_pos hs]
      have e3 : advanceCount f v (k + 1) = advanceCount f v k + 1 := by
        simp only [advanceCount, if_pos hs]
      rw [e1, e2, e3, ihs, ihb]
      push_cast
      constructor <;> ring
    · have e1 : (loop_body f ((loop_body f)^[k] v)).sign =
          ((loop_body f)^[k] v).sign + (f.bDiff + f.bDiff) := by
        simp only [loop_body, if_neg hs]
      have e2 : (loop_body f ((loop_body f)^[k] v)).b = ((loop_body f)^[k] v).b := by
        simp only [loop_body, if_neg hs]
      have e3 : advanceCount f v (k + 1) = advanceCount f v k := by
        simp only [advanceCount, if_neg hs, Nat.add_zero]
      rw [e1, e2, e3, ihs, ihb]
      push_cast
      constructor <;> ring

theorem iterate_sign_bounds (f : Frame) (v : Vars) (hA : 0 ≤ f.aDiff) (hB : 0 ≤ f.bDiff)
    (hBA : f.bDiff ≤ f.aDiff) (hsign : v.sign = f.bDiff + f.bDiff - f.aDiff) (k : Nat) :
    2 * f.bDiff - 2 * f.aDiff ≤ ((loop_body f)^[k] v).sign ∧
      ((loop_body f)^[k] v).sign ≤ 2 * f.bDiff := by
  induction k with
  | zero =>
    simp only [Function.iterate_zero, id_eq, hsign]
    constructor <;> linarith
  | succ k ih =>
    obtain ⟨ihlo, ihhi⟩ := ih
    rw [Function.iterate_succ_apply']
    by_cases hs : ((loop_body f)^[k] v).sign ≥ 0
    · simp only [loop_body, if_pos hs]
      constructor <;> linarith
    · simp only [loop_body, if_neg hs]
      have hneg : ((loop_body f)^[k] v).sign < 0 := not_le.mp hs
      constructor <;> linarith

theorem setup_sign (x1 y1 x2 y2 : Int) :
    (setup x1 y1 x2 y2).2.sign =
      (setup x1 y1 x2 y2).1.bDiff + (setup x1 y1 x2 y2).1.bDiff - (setup x1 y1 x2 y2).1.aDiff := by
  by_cases h : |y2 - y1| ≤ |x2 - x1|
  · rw [setup_shallow x1 y1 x2 y2 h]
  · rw [setup_steep x1 y1 x2 y2 h]

theorem setup_diff_bounds (x1 y1 x2 y2 : Int) :
    0 ≤ (setup x1 y1 x2 y2).1.bDiff ∧
      (setup x1 y1 x2 y2).1.bDiff ≤ (setup x1 y1 x2 y2).1.aDiff ∧
      0 ≤ (setup x1 y1 x2 y2).1.aDiff := by
  rw [setup_aDiff, setup_bDiff]
  exact ⟨le_min (abs_nonneg _) (abs_nonneg _), le_trans (min_le_left _ _) (le_max_left _ _),
    le_max_of_le_left (abs_nonneg _)⟩

/-! ## 32-bit arithmetic -/

theorem wrap32_of_inInt32 {v : Int} (h : inInt32 v) : wrap32 v = v := by
  obtain ⟨h1, h2⟩ := h
  unfold wrap32
  omega

theorem while_loop32_eq (f : Frame) (r : Nat) : ∀ (v : Vars),
    (∀ j, j < r → ((loop_body f)^[j] v).a ≠ f.aTerm) →
    ((loop_body f)^[r] v).a = f.aTerm →
    (∀ j, j < r → loop_body32 f ((loop_body f)^[j] v) = loop_body f ((loop_body f)^[j] v)) →
    ∀ fuel, while_loop32 f fuel v = while_loop f fuel v := by
  induction r with
  | zero =>
    intro v _ hend _ fuel
    have h0 : v.a = f.aTerm := by simpa using hend
    cases fuel <;> simp [while_loop32, while_loop, h0]
  | succ r ih =>
    intro v hne hend hbody fuel
    have h0 : v.a ≠ f.aTerm := by simpa using hne 0 (Nat.succ_pos r)
    cases fuel with
    | zero => simp [while_loop32, while_loop, h0]
    | succ fuel =>
      have hb0 : loop_body32 f v = loop_body f v := by simpa using hbody 0 (Nat.succ_pos r)
      have hne1 : ∀ j, j < r → ((loop_body f)^[j] (loop_body f v)).a ≠ f.aTerm := by
        intro j hj
        have := hne (j + 1) (Nat.succ_lt_succ hj)
        simpa [Function.iterate_succ_apply] using this
      have hend1 : ((loop_body f)^[r] (loop_body f v)).a = f.aTerm := by
        simpa [Function.iterate_succ_apply] using hend
      have hbody1 : ∀ j, j < r →
          loop_body32 f ((loop_body f)^[j] (loop_body f v)) =
            loop_body f ((loop_body f)^[j] (loop_body f v)) := by
        intro j hj
        have := hbody (j + 1) (Nat.succ_lt_succ hj)
        simpa [Function.iterate_succ_apply] using this
      rw [while_loop32, while_loop, if_neg h0, if_neg h0, hb0,
        ih (loop_body f v) hne1 hend1 hbody1 fuel]

theorem loop_body32_eq (f : Frame) (v : Vars)
    (hc1 : inInt32 (f.bDiff + f.bDiff))
    (hc2 : inInt32 (f.bDiff + f.bDiff - f.aDiff - f.aDiff))
    (hc3 : inInt32 (f.bDiff + f.bDiff - f.aDiff))
    (ha : inInt32 (loop_body f v).a) (hb : inInt32 (loop_body f v).b)
    (hs : inInt32 (loop_body f v).sign) :
    loop_body32 f v = loop_body f v := by
  by_cases h : v.sign ≥ 0
  · simp only [loop_body, if_pos h] at ha hb hs
    simp only [loop_body32, loop_body, if_pos h, wrap32_of_inInt32 hc1, wrap32_of_inInt32 hc3,
      wrap32_of_inInt32 hc2, wrap32_of_inInt32 ha, wrap32_of_inInt32 hb, wrap32_of_inInt32 hs]
  · simp only [loop_body, if_neg h] at ha hs
    simp only [loop_body32, loop_body, if_neg h, wrap32_of_inInt32 hc1, wrap32_of_inInt32 ha,
      wrap32_of_inInt32 hs]

theorem abs_sub_le_of_coords {p q : Int} (hp : -536870912 ≤ p ∧ p ≤ 536870911)
    (hq : -536870912 ≤ q ∧ q ≤ 536870911) : |q - p| ≤ 1073741823 := by
  obtain ⟨hp1, hp2⟩ := hp
  obtain ⟨hq1, hq2⟩ := hq
  rw [abs_le]
  constructor <;> omega

theorem setup32_eq (x1 y1 x2 y2 : Int)
    (hx1 : -536870912 ≤ x1 ∧ x1 ≤ 536870911) (hy1 : -536870912 ≤ y1 ∧ y1 ≤ 536870911)
    (hx2 : -536870912 ≤ x2 ∧ x2 ≤ 536870911) (hy2 : -536870912 ≤ y2 ∧ y2 ≤ 536870911) :
    setup32 x1 y1 x2 y2 = setup x1 y1 x2 y2 := by
  have hax := abs_sub_le_of_coords hx1 hx2
  have hay := abs_sub_le_of_coords hy1 hy2
  have hax0 := abs_nonneg (x2 - x1)
  have hay0 := abs_nonneg (y2 - y1)
  obtain ⟨a1, a2⟩ := hx1
  obtain ⟨b1, b2⟩ := hy1
  obtain ⟨c1, c2⟩ := hx2
  obtain ⟨d1, d2⟩ := hy2
  have w1 : wrap32 (x2 - x1) = x2 - x1 := by unfold wrap32; omega
  have w2 : wrap32 (y2 - y1) = y2 - y1 := by unfold wrap32; omega
  have w3 : wrap32 (-(x2 - x1)) = -(x2 - x1) := by unfold wrap32; omega
  have w4 : wrap32 (-(y2 - y1)) = -(y2 - y1) := by unfold wrap32; omega
  have w5 : wrap32 (|x2 - x1| - |y2 - y1|) = |x2 - x1| - |y2 - y1| := by
    unfold wrap32; omega
  by_cases h : |y2 - y1| ≤ |x2 - x1|
  · have hs : |x2 - x1| - |y2 - y1| ≥ 0 := by linarith
    have w6 : wrap32 (x2 + if x2 - x1 ≥ 0 then 1 else -1) =
        x2 + if x2 - x1 ≥ 0 then 1 else -1 := by
      split_ifs <;> (unfold wrap32; omega)
    have w7 : wrap32 (wrap32 (|y2 - y1| + |y2 - y1|) - |x2 - x1|) =
        |y2 - y1| + |y2 - y1| - |x2 - x1| := by
      unfold wrap32; omega
    rw [setup_shallow x1 y1 x2 y2 h]
    simp only [setup32, w1, w2, w3, w4, ite_neg_eq_abs, w5, hs, decide_True, if_true,
      decide_eq_true_eq, incOf, w6, w7]
  · have hs : ¬ (|x2 - x1| - |y2 - y1| ≥ 0) := by
      intro hc; apply h; linarith
    have w6 : wrap32 (y2 + if y2 - y1 ≥ 0 then 1 else -1) =
        y2 + if y2 - y1 ≥ 0 then 1 else -1 := by
      split_ifs <;> (unfold wrap32; omega)
    have w7 : wrap32 (wrap32 (|x2 - x1| + |x2 - x1|) - |y2 - y1|) =
        |x2 - x1| + |x2 - x1| - |y2 - y1| := by
      unfold wrap32; omega
    rw [setup_steep x1 y1 x2 y2 h]
    simp only [setup32, w1, w2, w3, w4, ite_neg_eq_abs, w5, hs, decide_False,
      decide_eq_true_eq, incOf, w6, w7]
    simp

theorem setup_loop_exit (x1 y1 x2 y2 : Int) :
    (∀ j, j < steps x1 y1 x2 y2 + 1 →
      ((loop_body (setup x1 y1 x2 y2).1)^[j] (setup x1 y1 x2 y2).2).a ≠
        (setup x1 y1 x2 y2).1.aTerm) ∧
    ((loop_body (setup x1 y1 x2 y2).1)^[steps x1 y1 x2 y2 + 1] (setup x1 y1 x2 y2).2).a =
      (setup x1 y1 x2 y2).1.aTerm := by
  have hcast := steps_cast x1 y1 x2 y2
  constructor
  · intro j hj heq
    rw [iterate_a, setup_aTerm, ← hcast] at heq
    have hj' : (j : Int) < steps x1 y1 x2 y2 + 1 := by exact_mod_cast hj
    rcases setup_aInc_cases x1 y1 x2 y2 with h | h <;> rw [h] at heq <;> linarith
  · rw [iterate_a, setup_aTerm, ← hcast]
    push_cast
    ring

theorem setup_start_range (x1 y1 x2 y2 : Int)
    (hx1 : -536870912 ≤ x1 ∧ x1 ≤ 536870911) (hy1 : -536870912 ≤ y1 ∧ y1 ≤ 536870911) :
    (-536870912 ≤ (setup x1 y1 x2 y2).2.a ∧ (setup x1 y1 x2 y2).2.a ≤ 536870911) ∧
    (-536870912 ≤ (setup x1 y1 x2 y2).2.b ∧ (setup x1 y1 x2 y2).2.b ≤ 536870911) := by
  by_cases h : |y2 - y1| ≤ |x2 - x1|
  · rw [setup_shallow x1 y1 x2 y2 h]; exact ⟨hx1, hy1⟩
  · rw [setup_steep x1 y1 x2 y2 h]; exact ⟨hy1, hx1⟩

theorem max_abs_le_of_coords (x1 y1 x2 y2 : Int)
    (hx1 : -536870912 ≤ x1 ∧ x1 ≤ 536870911) (hy1 : -536870912 ≤ y1 ∧ y1 ≤ 536870911)
    (hx2 : -536870912 ≤ x2 ∧ x2 ≤ 536870911) (hy2 : -536870912 ≤ y2 ∧ y2 ≤ 536870911) :
    max |x2 - x1| |y2 - y1| ≤ 1073741823 :=
  max_le (abs_sub_le_of_coords hx1 hx2) (abs_sub_le_of_coords hy1 hy2)

/-- Every state the loop reaches holds 32-bit values when the coordinates lie
in `[-2^29, 2^29 - 1]`. -/
theorem reach_inInt32 (x1 y1 x2 y2 : Int)
    (hx1 : -536870912 ≤ x1 ∧ x1 ≤ 536870911) (hy1 : -536870912 ≤ y1 ∧ y1 ≤ 536870911)
    (hx2 : -536870912 ≤ x2 ∧ x2 ≤ 536870911) (hy2 : -536870912 ≤ y2 ∧ y2 ≤ 536870911)
    (k : Nat) (hk : (k : Int) ≤ max |x2 - x1| |y2 - y1| + 1) :
    inInt32 ((loop_body (setup x1 y1 x2 y2).1)^[k] (setup x1 y1 x2 y2).2).a ∧
    inInt32 ((loop_body (setup x1 y1 x2 y2).1)^[k] (setup x1 y1 x2 y2).2).b ∧
    inInt32 ((loop_body (setup x1 y1 x2 y2).1)^[k] (setup x1 y1 x2 y2).2).sign := by
  have hmax := max_abs_le_of_coords x1 y1 x2 y2 hx1 hy1 hx2 hy2
  obtain ⟨⟨sa1, sa2⟩, ⟨sb1, sb2⟩⟩ := setup_start_range x1 y1 x2 y2 hx1 hy1
  obtain ⟨hB, hBA, hA⟩ := setup_diff_bounds x1 y1 x2 y2
  obtain ⟨-, hb⟩ := iterate_sign_b (setup x1 y1 x2 y2).1 (setup x1 y1 x2 y2).2 k
  obtain ⟨hlo, hhi⟩ := iterate_sign_bounds (setup x1 y1 x2 y2).1 (setup x1 y1 x2 y2).2
    hA hB hBA (setup_sign x1 y1 x2 y2) k
  have hm : ((advanceCount (setup x1 y1 x2 y2).1 (setup x1 y1 x2 y2).2 k : Nat) : Int) ≤ k := by
    exact_mod_cast advanceCount_le _ _ k
  have hm0 : (0 : Int) ≤ (advanceCount (setup x1 y1 x2 y2).1 (setup x1 y1 x2 y2).2 k : Nat) :=
    Int.ofNat_nonneg _
  have hk0 : (0 : Int) ≤ k := Int.ofNat_nonneg k
  have hAeq := setup_aDiff x1 y1 x2 y2
  refine ⟨?_, ?_, ?_⟩
  · rw [iterate_a]
    unfold inInt32
    rcases setup_aInc_cases x1 y1 x2 y2 with h | h <;> rw [h] <;> constructor <;> linarith
  · rw [hb]
    unfold inInt32
    have hbi : (setup x1 y1 x2 y2).1.bInc = 1 ∨ (setup x1 y1 x2 y2).1.bInc = -1 := by
      rw [setup_bInc]; exact secondaryInc_cases x1 y1 x2 y2
    rcases hbi with h | h <;> rw [h] <;> constructor <;> linarith
  · unfold inInt32
    constructor <;> linarith

theorem setup_constants_inInt32 (x1 y1 x2 y2 : Int)
    (hx1 : -536870912 ≤ x1 ∧ x1 ≤ 536870911) (hy1 : -536870912 ≤ y1 ∧ y1 ≤ 536870911)
    (hx2 : -536870912 ≤ x2 ∧ x2 ≤ 536870911) (hy2 : -536870912 ≤ y2 ∧ y2 ≤ 536870911) :
    inInt32 ((setup x1 y1 x2 y2).1.bDiff + (setup x1 y1 x2 y2).1.bDiff) ∧
    inInt32 ((setup x1 y1 x2 y2).1.bDiff + (setup x1 y1 x2 y2).1.bDiff -
      (setup x1 y1 x2 y2).1.aDiff) ∧
    inInt32 ((setup x1 y1 x2 y2).1.bDiff + (setup x1 y1 x2 y2).1.bDiff -
      (setup x1 y1 x2 y2).1.aDiff - (setup x1 y1 x2 y2).1.aDiff) ∧
    inInt32 (setup x1 y1 x2 y2).1.aTerm := by
  have hmax := max_abs_le_of_coords x1 y1 x2 y2 hx1 hy1 hx2 hy2
  obtain ⟨⟨sa1, sa2⟩, -⟩ := setup_start_range x1 y1 x2 y2 hx1 hy1
  obtain ⟨hB, hBA, hA⟩ := setup_diff_bounds x1 y1 x2 y2
  have hAeq := setup_aDiff x1 y1 x2 y2
  have hT := setup_aTerm x1 y1 x2 y2
  unfold inInt32
  refine ⟨⟨by linarith, by linarith⟩, ⟨by linarith, by linarith⟩,
    ⟨by linarith, by linarith⟩, ?_⟩
  rw [hT]
  rcases setup_aInc_cases x1 y1 x2 y2 with h | h <;> rw [h] <;> constructor <;> linarith

theorem render32_eq (x1 y1 x2 y2 : Int)
    (hx1 : -536870912 ≤ x1 ∧ x1 ≤ 536870911) (hy1 : -536870912 ≤ y1 ∧ y1 ≤ 536870911)
    (hx2 : -536870912 ≤ x2 ∧ x2 ≤ 536870911) (hy2 : -536870912 ≤ y2 ∧ y2 ≤ 536870911)
    (fuel : Nat) (r : Option SDL_Renderer) :
    render_bresenham_line32 fuel r x1 y1 x2 y2 = render_bresenham_line fuel r x1 y1 x2 y2 := by
  cases r with
  | none => rfl
  | some r =>
    obtain ⟨hne, hend⟩ := setup_loop_exit x1 y1 x2 y2
    obtain ⟨c1, c3, c2, -⟩ := setup_constants_inInt32 x1 y1 x2 y2 hx1 hy1 hx2 hy2
    have hcast := steps_cast x1 y1 x2 y2
    unfold render_bresenham_line32 render_bresenham_line
    simp only
    rw [setup32_eq x1 y1 x2 y2 hx1 hy1 hx2 hy2]
    apply while_loop32_eq _ (steps x1 y1 x2 y2 + 1) _ hne hend
    intro j hj
    have hj' : ((j + 1 : Nat) : Int) ≤ max |x2 - x1| |y2 - y1| + 1 := by
      rw [← hcast]; exact_mod_cast hj
    obtain ⟨ra, rb, rs⟩ := reach_inInt32 x1 y1 x2 y2 hx1 hy1 hx2 hy2 (j + 1) hj'
    rw [Function.iterate_succ_apply'] at ra rb rs
    exact loop_body32_eq _ _ c1 c2 c3 ra rb rs

/-! ## From the exact-integer model to the 32-bit code -/

theorem plots32_of_plots {x1 y1 x2 y2 : Int} (h : CoordsInRange x1 y1 x2 y2)
    {pts : List Point} (hp : Plots x1 y1 x2 y2 pts) : Plots32 x1 y1 x2 y2 pts := by
  obtain ⟨n, hn⟩ := hp
  refine ⟨n, fun fuel r => ?_⟩
  rw [render32_eq x1 y1 x2 y2 h.1 h.2.1 h.2.2.1 h.2.2.2 fuel (some r)]
  exact hn fuel r

theorem setup32_eq_of_range {x1 y1 x2 y2 : Int} (h : CoordsInRange x1 y1 x2 y2) :
    setup32 x1 y1 x2 y2 = setup x1 y1 x2 y2 :=
  setup32_eq x1 y1 x2 y2 h.1 h.2.1 h.2.2.1 h.2.2.2

/-- Up to the exit of the loop, the 32-bit loop variables are the exact ones. -/
theorem iterate32_eq {x1 y1 x2 y2 : Int} (h : CoordsInRange x1 y1 x2 y2) (k : Nat)
    (hk : (k : Int) ≤ max |x2 - x1| |y2 - y1| + 1) :
    (loop_body32 (setup x1 y1 x2 y2).1)^[k] (setup x1 y1 x2 y2).2 =
      (loop_body (setup x1 y1 x2 y2).1)^[k] (setup x1 y1 x2 y2).2 := by
  induction k with
  | zero => rfl
  | succ k ih =>
    have hk' : (k : Int) ≤ max |x2 - x1| |y2 - y1| + 1 := by
      have : ((k + 1 : Nat) : Int) = (k : Int) + 1 := by push_cast; rfl
      linarith
    obtain ⟨c1, c3, c2, -⟩ := setup_constants_inInt32 x1 y1 x2 y2 h.1 h.2.1 h.2.2.1 h.2.2.2
    obtain ⟨ra, rb, rs⟩ := reach_inInt32 x1 y1 x2 y2 h.1 h.2.1 h.2.2.1 h.2.2.2 (k + 1) hk
    rw [Function.iterate_succ_apply'] at ra rb rs
    rw [Function.iterate_succ_apply', Function.iterate_succ_apply', ih hk']
    exact loop_body32_eq _ _ c1 c2 c3 ra rb rs

theorem advanceCount32_eq {x1 y1 x2 y2 : Int} (h : CoordsInRange x1 y1 x2 y2) (k : Nat)
    (hk : (k : Int) ≤ max |x2 - x1| |y2 - y1| + 1) :
    advanceCount32 (setup x1 y1 x2 y2).1 (setup x1 y1 x2 y2).2 k =
      advanceCount (setup x1 y1 x2 y2).1 (setup x1 y1 x2 y2).2 k := by
  induction k with
  | zero => rfl
  | succ k ih =>
    have hk' : (k : Int) ≤ max |x2 - x1| |y2 - y1| + 1 := by
      have : ((k + 1 : Nat) : Int) = (k : Int) + 1 := by push_cast; rfl
      linarith
    simp only [advanceCount32, advanceCount, ih hk', iterate32_eq h k hk']

theorem coordsInRange_swap {x1 y1 x2 y2 : Int} (h : CoordsInRange x1 y1 x2 y2) :
    CoordsInRange x2 y2 x1 y1 :=
  ⟨h.2.2.1, h.2.2.2, h.1, h.2.1⟩

theorem coordsInRange_transpose {x1 y1 x2 y2 : Int} (h : CoordsInRange x1 y1 x2 y2) :
    CoordsInRange y1 x1 y2 x2 :=
  ⟨h.2.1, h.1, h.2.2.2, h.2.2.1⟩

/-- A terminating run of the 32-bit call pins the plotted sequence. -/
theorem plots32_eq_of_eval {x1 y1 x2 y2 : Int} {fuel : Nat} {r : SDL_Renderer}
    {pts0 : List Point}
    (e : render_bresenham_line32 fuel (some r) x1 y1 x2 y2 = some pts0)
    {pts : List Point} (hp : Plots32 x1 y1 x2 y2 pts) : pts = pts0 := by
  obtain ⟨n, hn⟩ := hp
  have h := hn fuel r
  rw [e] at h
  split_ifs at h
  exact (Option.some.inj h).symm

/-- As long as the loop condition holds, the `k`-th plotted point of the 32-bit
loop is read off the state after `k` iterations. -/
theorem while_loop32_nth (f : Frame) (k : Nat) : ∀ (fuel : Nat) (v : Vars)
    (pts : List Point), while_loop32 f fuel v = some pts →
    (∀ j, j ≤ k → ((loop_body32 f)^[j] v).a ≠ f.aTerm) →
    pts[k]? = some (deref_xy f ((loop_body32 f)^[k] v)) := by
  induction k with
  | zero =>
    intro fuel v pts hrun hne
    have h0 : v.a ≠ f.aTerm := by simpa using hne 0 (Nat.le_refl 0)
    cases fuel with
    | zero => simp [while_loop32, h0] at hrun
    | succ fuel =>
      rw [while_loop32, if_neg h0] at hrun
      obtain ⟨rest, -, hpts⟩ := Option.map_eq_some'.mp hrun
      rw [← hpts]
      simp
  | succ k ih =>
    intro fuel v pts hrun hne
    have h0 : v.a ≠ f.aTerm := by simpa using hne 0 (Nat.zero_le _)
    cases fuel with
    | zero => simp [while_loop32, h0] at hrun
    | succ fuel =>
      rw [while_loop32, if_neg h0] at hrun
      obtain ⟨rest, hrest, hpts⟩ := Option.map_eq_some'.mp hrun
      have hne1 : ∀ j, j ≤ k → ((loop_body32 f)^[j] (loop_body32 f v)).a ≠ f.aTerm := by
        intro j hj
        have := hne (j + 1) (Nat.succ_le_succ hj)
        simpa [Function.iterate_succ_apply] using this
      have := ih fuel (loop_body32 f v) rest hrest hne1
      rw [← hpts, List.getElem?_cons_succ, this, Function.iterate_succ_apply]

theorem plots32_nth {x1 y1 x2 y2 : Int} {pts : List Point}
    (hp : Plots32 x1 y1 x2 y2 pts) (k : Nat)
    (hne : ∀ j, j ≤ k →
      ((loop_body32 (setup32 x1 y1 x2 y2).1)^[j] (setup32 x1 y1 x2 y2).2).a ≠
        (setup32 x1 y1 x2 y2).1.aTerm) :
    pts[k]? =
      some (deref_xy (setup32 x1 y1 x2 y2).1
        ((loop_body32 (setup32 x1 y1 x2 y2).1)^[k] (setup32 x1 y1 x2 y2).2)) := by
  obtain ⟨n, hn⟩ := hp
  have h := hn n ⟨0⟩
  rw [if_pos (Nat.le_refl n)] at h
  exact while_loop32_nth _ k n _ pts h hne

/-- The NULL guard of the 32-bit code: no plot, normal return, for all arguments. -/
theorem render32_null (fuel : Nat) (x1 y1 x2 y2 : Int) :
    render_bresenham_line32 fuel none x1 y1 x2 y2 = some [] :=
  rfl

theorem while_loop32_exit (f : Frame) (n : Nat) (v : Vars) (h : v.a = f.aTerm) :
    while_loop32 f n v = some [] := by
  cases n <;> simp [while_loop32, h]

/-- The degenerate segment in the 32-bit code, for every representable point:
one iteration, one plot (also at `x = INT_MAX`, where `aTerm` and `a` both wrap). -/
theorem render32_degenerate (x y : Int) (hx : inInt32 x) (fuel : Nat) (r : SDL_Renderer) :
    render_bresenham_line32 (fuel + 1) (some r) x y x y = some [(x, y)] := by
  obtain ⟨hx1, hx2⟩ := hx
  have w0 : wrap32 0 = 0 := by decide
  have hs : setup32 x y x y =
      ({ shallow := true, aDiff := 0, bDiff := 0, aInc := 1, bInc := 1,
         aTerm := wrap32 (x + 1) },
       { a := x, b := y, sign := 0 }) := by
    simp [setup32, w0]
  have hne : x ≠ wrap32 (x + 1) := by
    unfold wrap32; omega
  unfold render_bresenham_line32
  simp only [hs]
  rw [while_loop32, if_neg hne, while_loop32_exit _ fuel _ (by simp [loop_body32])]
  simp [deref_xy]

/-- A stretch of the 32-bit loop in which `sign` stays negative: with
`aInc = 1` and `bDiff = 1` every iteration adds `1` to `a` and `2` to `sign`. -/
theorem flat_run32 (f : Frame) (v : Vars) (hInc : f.aInc = 1) (hB : f.bDiff = 1) (j : Nat)
    (ha1 : -2147483648 ≤ v.a) (ha2 : v.a + j ≤ 2147483647)
    (hs1 : -2147483648 ≤ v.sign) (hs2 : v.sign + 2 * j ≤ 0) :
    (loop_body32 f)^[j] v = { a := v.a + j, b := v.b, sign := v.sign + 2 * j } := by
  induction j with
  | zero => simp
  | succ j ih =>
    have hc : ((j + 1 : Nat) : Int) = (j : Int) + 1 := by push_cast; rfl
    rw [hc] at ha2 hs2
    have hneg : ¬ (v.sign + 2 * (j : Int) ≥ 0) := by omega
    rw [Function.iterate_succ_apply', ih (by omega) (by omega)]
    simp only [loop_body32, if_neg hneg, hInc, hB, hc]
    have w1 : wrap32 (v.a + (j : Int) + 1) = v.a + ((j : Int) + 1) := by
      unfold wrap32; omega
    have w2 : wrap32 (v.sign + 2 * (j : Int) + wrap32 (1 + 1)) =
        v.sign + 2 * ((j : Int) + 1) := by
      unfold wrap32; omega
    rw [w1, w2]

/-- After `K` such iterations `sign` reaches `0`; with `aDiff = 1610612736` the
update `bDiff + bDiff - aDiff - aDiff` wraps to `1073741826`, so the 32-bit
loop advances `b` twice in a row. -/
theorem overshoot32 (f : Frame) (v : Vars) (K : Nat)
    (hInc : f.aInc = 1) (hB : f.bDiff = 1) (hA : f.aDiff = 1610612736)
    (ha1 : -2147483648 ≤ v.a) (hT1 : v.a + K + 2 < f.aTerm) (hT2 : f.aTerm ≤ 2147483647)
    (hs1 : -2147483648 ≤ v.sign) (hs2 : v.sign + 2 * K = 0) :
    (∀ j, j ≤ K + 2 → ((loop_body32 f)^[j] v).a ≠ f.aTerm) ∧
    (loop_body32 f)^[K + 2] v =
      { a := v.a + K + 2, b := wrap32 (wrap32 (v.b + f.bInc) + f.bInc),
        sign := -2147483644 } := by
  have hK : (loop_body32 f)^[K] v = { a := v.a + K, b := v.b, sign := 0 } := by
    rw [flat_run32 f v hInc hB K ha1 (by omega) hs1 (by omega), hs2]
  have hK1 : (loop_body32 f)^[K + 1] v =
      { a := v.a + K + 1, b := wrap32 (v.b + f.bInc), sign := 1073741826 } := by
    rw [Function.iterate_succ_apply', hK]
    have hpos : (0 : Int) ≥ 0 := le_refl 0
    simp only [loop_body32, if_pos hpos, hInc, hB, hA]
    have w1 : wrap32 (v.a + (K : Int) + 1) = v.a + (K : Int) + 1 := by
      unfold wrap32; omega
    have w2 : wrap32 (0 + wrap32 (wrap32 (wrap32 (1 + 1) - 1610612736) - 1610612736)) =
        1073741826 := by decide
    rw [w1, w2]
  have hK2 : (loop_body32 f)^[K + 2] v =
      { a := v.a + K + 2, b := wrap32 (wrap32 (v.b + f.bInc) + f.bInc),
        sign := -2147483644 } := by
    rw [Function.iterate_succ_apply', hK1]
    have hpos : (1073741826 : Int) ≥ 0 := by decide
    simp only [loop_body32, if_pos hpos, hInc, hB, hA]
    have w1 : wrap32 (v.a + (K : Int) + 1 + 1) = v.a + (K : Int) + 2 := by
      unfold wrap32; omega
    have w2 : wrap32 (1073741826 +
        wrap32 (wrap32 (wrap32 (1 + 1) - 1610612736) - 1610612736)) = -2147483644 := by
      decide
    rw [w1, w2]
  refine ⟨?_, hK2⟩
  intro j hj heq
  rcases Nat.lt_or_ge K j with hlt | hge
  · rcases Nat.eq_or_lt_of_le (Nat.succ_le_of_lt hlt) with h1 | h2
    · rw [← h1, Nat.succ_eq_add_one, hK1] at heq
      simp only at heq
      omega
    · have hj2 : j = K + 2 := by omega
      rw [hj2, hK2] at heq
      simp only at heq
      omega
  · have hjK : (j : Int) ≤ K := by exact_mod_cast hge
    rw [flat_run32 f v hInc hB j ha1 (by omega) hs1 (by omega)] at heq
    simp only at heq
    omega

/-! ## Results for the exact-integer model

The statements below are about `render_bresenham_line`, the reading of the
code in which no arithmetic operation overflows.  They are transferred to the
32-bit code in the last section. -/

/-- Exact-integer model: for all integer endpoints and an available drawing context, the number
of points plotted equals `max(|x2-x1|, |y2-y1|) + 1`. -/
theorem exact_point_count (x1 y1 x2 y2 : Int) :
    ∃ pts, Plots x1 y1 x2 y2 pts ∧
      (pts.length : Int) = max |x2 - x1| |y2 - y1| + 1 := by
  refine ⟨lineList x1 y1 x2 y2, plots_lineList x1 y1 x2 y2, ?_⟩
  rw [lineList_length, ← steps_cast]
  push_cast
  rfl

/-- Exact-integer model: for all integer endpoints, both directions plot the same
number of points, and the sequence for `(x2,y2) → (x1,y1)` is the reverse of
the sequence for `(x1,y1) → (x2,y2)` (so both are the same point set) if and
only if no interior driving step `0 < k < aDiff` is an exact half-pixel tie,
that is `2*aDiff` does not divide `2*bDiff*k + aDiff`, where
`aDiff = max(|dx|,|dy|)` and `bDiff = min(|dx|,|dy|)`. -/
theorem exact_reverse_iff_no_tie (x1 y1 x2 y2 : Int) :
    ∃ pts pts', Plots x1 y1 x2 y2 pts ∧ Plots x2 y2 x1 y1 pts' ∧
      pts'.length = pts.length ∧
      (pts'.reverse = pts ↔
        ∀ k : Int, 0 < k → k < max |x2 - x1| |y2 - y1| →
          ¬ (2 * max |x2 - x1| |y2 - y1| ∣
              2 * min |x2 - x1| |y2 - y1| * k + max |x2 - x1| |y2 - y1|)) := by
  refine ⟨lineList x1 y1 x2 y2, lineList x2 y2 x1 y1, plots_lineList _ _ _ _,
    plots_lineList _ _ _ _, ?_, lineList_reverse_iff_no_tie x1 y1 x2 y2⟩
  rw [lineList_length, lineList_length, steps_swap]

/-- Exact-integer model: negative-direction octants mirror their positive counterparts: for all
integers `x1`, `y1`, all `dx ≥ 0`, `dy ≥ 0` and signs `sx, sy ∈ {+1,-1}`, the
`k`-th point plotted for `(x1,y1) → (x1+sx*dx, y1+sy*dy)` is
`(x1 + sx*u_k, y1 + sy*v_k)`, where `(u_k, v_k)` is the `k`-th point plotted
for `(0,0) → (dx,dy)`. -/
theorem exact_octant_mirror (x1 y1 dx dy sx sy : Int) (hdx : 0 ≤ dx) (hdy : 0 ≤ dy)
    (hsx : sx = 1 ∨ sx = -1) (hsy : sy = 1 ∨ sy = -1) :
    ∃ pts, Plots 0 0 dx dy pts ∧
      Plots x1 y1 (x1 + sx * dx) (y1 + sy * dy)
        (pts.map (fun p => (x1 + sx * p.1, y1 + sy * p.2))) := by
  refine ⟨lineList 0 0 dx dy, plots_lineList 0 0 dx dy, ?_⟩
  rw [← lineList_mirror x1 y1 dx dy sx sy hdx hdy hsx hsy]
  exact plots_lineList _ _ _ _

/-- Exact-integer model: steep lines are the transpose of shallow ones: for all integer
endpoints the sequence plotted for `(y1,x1) → (y2,x2)` is the sequence plotted
for `(x1,y1) → (x2,y2)` with the two coordinates of every point swapped (also
when `|dx| = |dy|`); in particular `(0,0) → (2,5)` plots
`(0,0),(0,1),(1,2),(1,3),(2,4),(2,5)`, the transpose of the `(0,0) → (5,2)`
result. -/
theorem exact_steep_is_transpose :
    (∀ x1 y1 x2 y2 : Int, ∃ pts, Plots x1 y1 x2 y2 pts ∧
      Plots y1 x1 y2 x2 (pts.map Prod.swap)) ∧
    render_bresenham_line 6 (some ⟨0⟩) 0 0 2 5 =
      some [(0, 0), (0, 1), (1, 2), (1, 3), (2, 4), (2, 5)] ∧
    render_bresenham_line 6 (some ⟨0⟩) 0 0 5 2 =
      some [(0, 0), (1, 0), (2, 1), (3, 1), (4, 2), (5, 2)] := by
  refine ⟨?_, by decide, by decide⟩
  intro x1 y1 x2 y2
  refine ⟨lineList x1 y1 x2 y2, plots_lineList x1 y1 x2 y2, ?_⟩
  rw [← lineList_transpose]
  exact plots_lineList _ _ _ _

/-- Exact-integer model: closed form of the rasterization: for all integer endpoints with
`aDiff = max(|dx|,|dy|) > 0` and `bDiff = min(|dx|,|dy|)`, the sequence has
`aDiff + 1` points and the `k`-th plotted point has driving coordinate
`start + k*aInc` and secondary coordinate
`start + bInc * ⌊(2*bDiff*k + aDiff) / (2*aDiff)⌋` (the integer quotient `q`
with `2*aDiff*q ≤ 2*bDiff*k + aDiff < 2*aDiff*(q+1)`); at an exact half-pixel
tie `2*bDiff*k + aDiff = 2*aDiff*j` the plotted offset is `j`, i.e. the
secondary axis has advanced toward the end point. -/
theorem exact_closed_form (x1 y1 x2 y2 : Int) (hA : 0 < max |x2 - x1| |y2 - y1|) :
    ∃ pts, Plots x1 y1 x2 y2 pts ∧
      (pts.length : Int) = max |x2 - x1| |y2 - y1| + 1 ∧
      ∀ (k : Nat) (hk : k < pts.length),
        driving x1 y1 x2 y2 pts[k] =
          driving x1 y1 x2 y2 (x1, y1) + k * (setup x1 y1 x2 y2).1.aInc ∧
        secondary x1 y1 x2 y2 pts[k] =
          secondary x1 y1 x2 y2 (x1, y1) + (setup x1 y1 x2 y2).1.bInc *
            ((2 * min |x2 - x1| |y2 - y1| * k + max |x2 - x1| |y2 - y1|) /
              (2 * max |x2 - x1| |y2 - y1|)) ∧
        2 * max |x2 - x1| |y2 - y1| *
            ((2 * min |x2 - x1| |y2 - y1| * k + max |x2 - x1| |y2 - y1|) /
              (2 * max |x2 - x1| |y2 - y1|)) ≤
          2 * min |x2 - x1| |y2 - y1| * k + max |x2 - x1| |y2 - y1| ∧
        2 * min |x2 - x1| |y2 - y1| * k + max |x2 - x1| |y2 - y1| <
          2 * max |x2 - x1| |y2 - y1| *
            ((2 * min |x2 - x1| |y2 - y1| * k + max |x2 - x1| |y2 - y1|) /
              (2 * max |x2 - x1| |y2 - y1|) + 1) ∧
        ∀ j : Int,
          2 * min |x2 - x1| |y2 - y1| * k + max |x2 - x1| |y2 - y1| =
              2 * max |x2 - x1| |y2 - y1| * j →
            secondary x1 y1 x2 y2 pts[k] =
              secondary x1 y1 x2 y2 (x1, y1) + (setup x1 y1 x2 y2).1.bInc * j := by
  refine ⟨lineList x1 y1 x2 y2, plots_lineList x1 y1 x2 y2, ?_, ?_⟩
  · rw [lineList_length, ← steps_cast]
    push_cast
    rfl
  · intro k hk
    obtain ⟨hlo, hhi⟩ := advances_bounds (min |x2 - x1| |y2 - y1|) (k : Int) hA
    have hsec : secondary x1 y1 x2 y2 (lineList x1 y1 x2 y2)[k] =
        secondary x1 y1 x2 y2 (x1, y1) + (setup x1 y1 x2 y2).1.bInc *
          advances (max |x2 - x1| |y2 - y1|) (min |x2 - x1| |y2 - y1|) k := by
      rw [lineList_getElem, secondary_linePoint, setup_bInc]
      ring
    refine ⟨?_, hsec, hlo, hhi, ?_⟩
    · rw [lineList_getElem, driving_linePoint_inc, setup_aInc]
    · intro j hj
      have hm : advances (max |x2 - x1| |y2 - y1|) (min |x2 - x1| |y2 - y1|) k = j := by
        apply advances_eq_of_bounds hA
        · rw [hj]
        · rw [hj]; linarith
      rw [hsec, hm]

/-- Exact-integer model: axis-aligned lines are exact: a horizontal segment
`(x1,y) → (x2,y)` plots `(x1 + k*s, y)` for `k = 0..|x2-x1|` with `s` the sign
of `x2-x1`, a vertical segment `(x,y1) → (x,y2)` plots `(x, y1 + k*s)` for
`k = 0..|y2-y1|` with `s` the sign of `y2-y1`; the secondary coordinate never
changes.  In particular `(0,0) → (5,0)` plots
`(0,0),(1,0),(2,0),(3,0),(4,0),(5,0)`. -/
theorem exact_axis_aligned :
    (∀ x1 y x2 : Int,
      Plots x1 y x2 y
        ((List.range ((x2 - x1).natAbs + 1)).map
          (fun k : Nat => (x1 + k * Int.sign (x2 - x1), y)))) ∧
    (∀ x y1 y2 : Int,
      Plots x y1 x y2
        ((List.range ((y2 - y1).natAbs + 1)).map
          (fun k : Nat => (x, y1 + k * Int.sign (y2 - y1))))) ∧
    render_bresenham_line 6 (some ⟨0⟩) 0 0 5 0 =
      some [(0, 0), (1, 0), (2, 0), (3, 0), (4, 0), (5, 0)] := by
  refine ⟨?_, ?_, by decide⟩
  · intro x1 y x2
    rw [← lineList_horizontal]
    exact plots_lineList _ _ _ _
  · intro x y1 y2
    rw [← lineList_vertical]
    exact plots_lineList _ _ _ _

/-- Exact-integer model: diagonal lines are exact: for all integer endpoints with
`|x2-x1| = |y2-y1| = d` the plotted sequence is `(x1 + k*sx, y1 + k*sy)` for
`k = 0..d`, where `sx`, `sy` are the signs of `dx` and `dy`; both coordinates
advance at every step. -/
theorem exact_diagonal (x1 y1 x2 y2 : Int) (h : |x2 - x1| = |y2 - y1|) :
    Plots x1 y1 x2 y2
      ((List.range ((x2 - x1).natAbs + 1)).map
        (fun k : Nat => (x1 + k * Int.sign (x2 - x1), y1 + k * Int.sign (y2 - y1)))) := by
  rw [← lineList_diagonal x1 y1 x2 y2 h]
  exact plots_lineList _ _ _ _

/-- Exact-integer model: the path is traversed in order and is 8-connected: the driving axis
is `x` exactly when `|dx| ≥ |dy|` (then `aDiff = |dx|`, otherwise `y` drives),
with `aDiff = max(|dx|,|dy|)` and `bDiff = min(|dx|,|dy|)`; `aInc` and `bInc`
are `+1` or `-1`; between any two consecutive plotted points the driving
coordinate changes by exactly `aInc` and gets one closer to the end point,
and the secondary coordinate changes by `0` or by `bInc` and never gets
farther from the end point. -/
theorem exact_eight_connected (x1 y1 x2 y2 : Int) :
    ((setup x1 y1 x2 y2).1.shallow = true ↔ |y2 - y1| ≤ |x2 - x1|) ∧
    (setup x1 y1 x2 y2).1.aDiff = max |x2 - x1| |y2 - y1| ∧
    (setup x1 y1 x2 y2).1.bDiff = min |x2 - x1| |y2 - y1| ∧
    ((setup x1 y1 x2 y2).1.aInc = 1 ∨ (setup x1 y1 x2 y2).1.aInc = -1) ∧
    ((setup x1 y1 x2 y2).1.bInc = 1 ∨ (setup x1 y1 x2 y2).1.bInc = -1) ∧
    ∃ pts, Plots x1 y1 x2 y2 pts ∧
      ∀ (k : Nat) (p q : Point), pts[k]? = some p → pts[k + 1]? = some q →
        driving x1 y1 x2 y2 q = driving x1 y1 x2 y2 p + (setup x1 y1 x2 y2).1.aInc ∧
        |driving x1 y1 x2 y2 (x2, y2) - driving x1 y1 x2 y2 q| =
          |driving x1 y1 x2 y2 (x2, y2) - driving x1 y1 x2 y2 p| - 1 ∧
        (secondary x1 y1 x2 y2 q = secondary x1 y1 x2 y2 p ∨
          secondary x1 y1 x2 y2 q =
            secondary x1 y1 x2 y2 p + (setup x1 y1 x2 y2).1.bInc) ∧
        |secondary x1 y1 x2 y2 (x2, y2) - secondary x1 y1 x2 y2 q| ≤
          |secondary x1 y1 x2 y2 (x2, y2) - secondary x1 y1 x2 y2 p| := by
  refine ⟨setup_shallow_iff x1 y1 x2 y2, setup_aDiff x1 y1 x2 y2, setup_bDiff x1 y1 x2 y2,
    setup_aInc_cases x1 y1 x2 y2, ?_, lineList x1 y1 x2 y2, plots_lineList x1 y1 x2 y2, ?_⟩
  · rw [setup_bInc]; exact secondaryInc_cases x1 y1 x2 y2
  · intro k p q hp hq
    obtain ⟨-, hp'⟩ := lineList_getElem?_eq_some x1 y1 x2 y2 k p hp
    obtain ⟨hk, hq'⟩ := lineList_getElem?_eq_some x1 y1 x2 y2 (k + 1) q hq
    rw [hp', hq', setup_aInc, setup_bInc]
    exact linePoint_step x1 y1 x2 y2 k hk

/-- Exact-integer model: every point plotted lies inside the axis-aligned bounding box of the
two endpoints, `min(x1,x2) ≤ x ≤ max(x1,x2)` and `min(y1,y2) ≤ y ≤ max(y1,y2)`;
so when both endpoints are on a `w × h` surface, every plotted point is on it. -/
theorem exact_points_in_bounding_box (x1 y1 x2 y2 : Int) :
    ∃ pts, Plots x1 y1 x2 y2 pts ∧
      (∀ p ∈ pts, min x1 x2 ≤ p.1 ∧ p.1 ≤ max x1 x2 ∧ min y1 y2 ≤ p.2 ∧ p.2 ≤ max y1 y2) ∧
      (∀ w h : Int, 0 ≤ x1 → x1 < w → 0 ≤ x2 → x2 < w → 0 ≤ y1 → y1 < h → 0 ≤ y2 → y2 < h →
        ∀ p ∈ pts, 0 ≤ p.1 ∧ p.1 < w ∧ 0 ≤ p.2 ∧ p.2 < h) := by
  have hbox : ∀ p ∈ lineList x1 y1 x2 y2,
      min x1 x2 ≤ p.1 ∧ p.1 ≤ max x1 x2 ∧ min y1 y2 ≤ p.2 ∧ p.2 ≤ max y1 y2 := by
    intro p hp
    obtain ⟨k, hk, rfl⟩ := mem_lineList x1 y1 x2 y2 p hp
    exact linePoint_in_box x1 y1 x2 y2 k hk
  refine ⟨lineList x1 y1 x2 y2, plots_lineList x1 y1 x2 y2, hbox, ?_⟩
  intro w h a1 a2 a3 a4 b1 b2 b3 b4 p hp
  obtain ⟨c1, c2, c3, c4⟩ := hbox p hp
  refine ⟨le_trans (le_min a1 a3) c1, lt_of_le_of_lt c2 (max_lt a2 a4),
    le_trans (le_min b1 b3) c3, lt_of_le_of_lt c4 (max_lt b2 b4)⟩

/-- Exact-integer model: translation invariance: for all integers, the sequence plotted for
`(x1+tx, y1+ty) → (x2+tx, y2+ty)` is the sequence plotted for
`(x1,y1) → (x2,y2)` with `(tx,ty)` added to every point. -/
theorem exact_translation_invariance (x1 y1 x2 y2 tx ty : Int) :
    ∃ pts, Plots x1 y1 x2 y2 pts ∧
      Plots (x1 + tx) (y1 + ty) (x2 + tx) (y2 + ty)
        (pts.map (fun p => (p.1 + tx, p.2 + ty))) := by
  refine ⟨lineList x1 y1 x2 y2, plots_lineList x1 y1 x2 y2, ?_⟩
  rw [← lineList_translate]
  exact plots_lineList _ _ _ _

/-- Exact-integer model: decision-variable invariant: after `k` completed iterations (so at
every evaluation of the loop condition), with `m` the number of
secondary-axis advances so far, `sign = 2*bDiff*(k+1) - aDiff - 2*aDiff*m`
and `b = start + m*bInc`, and `2*bDiff - 2*aDiff ≤ sign ≤ 2*bDiff`, hence
`|sign| ≤ 2*max(|dx|,|dy|)`; here `aDiff = max(|dx|,|dy|)` and
`bDiff = min(|dx|,|dy|)`. -/
theorem exact_decision_variable_invariant (x1 y1 x2 y2 : Int) (k : Nat) :
    (setup x1 y1 x2 y2).1.aDiff = max |x2 - x1| |y2 - y1| ∧
    (setup x1 y1 x2 y2).1.bDiff = min |x2 - x1| |y2 - y1| ∧
    ((loop_body (setup x1 y1 x2 y2).1)^[k] (setup x1 y1 x2 y2).2).sign =
      2 * (setup x1 y1 x2 y2).1.bDiff * (k + 1) - (setup x1 y1 x2 y2).1.aDiff -
        2 * (setup x1 y1 x2 y2).1.aDiff *
          advanceCount (setup x1 y1 x2 y2).1 (setup x1 y1 x2 y2).2 k ∧
    ((loop_body (setup x1 y1 x2 y2).1)^[k] (setup x1 y1 x2 y2).2).b =
      (setup x1 y1 x2 y2).2.b +
        advanceCount (setup x1 y1 x2 y2).1 (setup x1 y1 x2 y2).2 k *
          (setup x1 y1 x2 y2).1.bInc ∧
    2 * (setup x1 y1 x2 y2).1.bDiff - 2 * (setup x1 y1 x2 y2).1.aDiff ≤
      ((loop_body (setup x1 y1 x2 y2).1)^[k] (setup x1 y1 x2 y2).2).sign ∧
    ((loop_body (setup x1 y1 x2 y2).1)^[k] (setup x1 y1 x2 y2).2).sign ≤
      2 * (setup x1 y1 x2 y2).1.bDiff ∧
    |((loop_body (setup x1 y1 x2 y2).1)^[k] (setup x1 y1 x2 y2).2).sign| ≤
      2 * max |x2 - x1| |y2 - y1| := by
  obtain ⟨hB, hBA, hA⟩ := setup_diff_bounds x1 y1 x2 y2
  obtain ⟨hs, hb⟩ := iterate_sign_b (setup x1 y1 x2 y2).1 (setup x1 y1 x2 y2).2 k
  obtain ⟨hlo, hhi⟩ := iterate_sign_bounds (setup x1 y1 x2 y2).1 (setup x1 y1 x2 y2).2
    hA hB hBA (setup_sign x1 y1 x2 y2) k
  refine ⟨setup_aDiff x1 y1 x2 y2, setup_bDiff x1 y1 x2 y2, ?_, hb, hlo, hhi, ?_⟩
  · rw [hs, setup_sign]; ring
  · rw [← setup_aDiff, abs_le]
    constructor <;> linarith

/-! ## The contract of `render_bresenham_line`

Statements about the 32-bit code are made with `render_bresenham_line32` and
`Plots32`.  Where a property fails for arbitrary `int` arguments because an
operation overflows, a counterexample is given first and the property is then
proved for coordinates in `[-2^29, 2^29 - 1]`. -/

/-- C2 (as stated) fails for 32-bit `int`: for `(INT_MIN,0) → (INT_MAX,0)` the
difference wraps to `-1` and the code plots two points, not
`max(|dx|,|dy|) + 1 = 2^32`. -/
theorem C2_overflow_counterexample :
    render_bresenham_line32 2 (some ⟨0⟩) (-2147483648) 0 2147483647 0 =
      some [(-2147483648, 0), (2147483647, 0)] ∧
    ¬ ∃ pts, Plots32 (-2147483648) 0 2147483647 0 pts ∧
        (pts.length : Int) = max |(2147483647 : Int) - (-2147483648)| |(0 : Int) - 0| + 1 := by
  have e : render_bresenham_line32 2 (some ⟨0⟩) (-2147483648) 0 2147483647 0 =
      some [(-2147483648, 0), (2147483647, 0)] := by
    decide
  refine ⟨e, ?_⟩
  rintro ⟨pts, hp, hl⟩
  rw [plots32_eq_of_eval e hp] at hl
  norm_num at hl

/-- C2 (amended): for all endpoints whose coordinates lie in
`[-2^29, 2^29 - 1]` and an available drawing context, the number of points the
32-bit call plots equals `max(|x2-x1|, |y2-y1|) + 1`. -/
theorem C2_point_count (x1 y1 x2 y2 : Int) (h : CoordsInRange x1 y1 x2 y2) :
    ∃ pts, Plots32 x1 y1 x2 y2 pts ∧
      (pts.length : Int) = max |x2 - x1| |y2 - y1| + 1 := by
  obtain ⟨pts, hp, rest⟩ := exact_point_count x1 y1 x2 y2
  exact ⟨pts, plots32_of_plots h hp, rest⟩

/-- C2 (amended) at `(0,0) → (5,2)`. -/
theorem C2_point_count_witness :
    CoordsInRange 0 0 5 2 ∧
    ∃ pts, Plots32 0 0 5 2 pts ∧
      (pts.length : Int) = max |(5 : Int) - 0| |(2 : Int) - 0| + 1 :=
  ⟨by decide, C2_point_count 0 0 5 2 (by decide)⟩

/-- C5 (as stated) fails: `(0,0) → (2,1)` plots `(0,0),(1,1),(2,1)` while
`(2,1) → (0,0)` plots `(2,1),(1,0),(0,0)`; the middle point is an exact
half-pixel tie, which each direction rounds toward its own end point, so the
second sequence is not the reverse of the first and the point sets differ.
The same holds for the 32-bit code.  For 32-bit `int` it also fails by
overflow where no tie occurs: `(0,0) → (INT_MIN,0)` plots only `(0,0)` and
`(INT_MIN,0) → (0,0)` plots only `(INT_MIN,0)`. -/
theorem C5_reverse_counterexample :
    render_bresenham_line 3 (some ⟨0⟩) 0 0 2 1 = some [(0, 0), (1, 1), (2, 1)] ∧
    render_bresenham_line 3 (some ⟨0⟩) 2 1 0 0 = some [(2, 1), (1, 0), (0, 0)] ∧
    ¬ (∃ pts, Plots 0 0 2 1 pts ∧ Plots 2 1 0 0 pts.reverse) ∧
    ¬ (∃ pts pts', Plots 0 0 2 1 pts ∧ Plots 2 1 0 0 pts' ∧ ∀ p, p ∈ pts ↔ p ∈ pts') ∧
    render_bresenham_line32 3 (some ⟨0⟩) 0 0 2 1 = some [(0, 0), (1, 1), (2, 1)] ∧
    render_bresenham_line32 3 (some ⟨0⟩) 2 1 0 0 = some [(2, 1), (1, 0), (0, 0)] ∧
    ¬ (∃ pts, Plots32 0 0 2 1 pts ∧ Plots32 2 1 0 0 pts.reverse) ∧
    render_bresenham_line32 1 (some ⟨0⟩) 0 0 (-2147483648) 0 = some [(0, 0)] ∧
    render_bresenham_line32 1 (some ⟨0⟩) (-2147483648) 0 0 0 = some [(-2147483648, 0)] ∧
    ¬ (∃ pts, Plots32 0 0 (-2147483648) 0 pts ∧
        Plots32 (-2147483648) 0 0 0 pts.reverse) := by
  have e1 : render_bresenham_line 3 (some ⟨0⟩) 0 0 2 1 = some [(0, 0), (1, 1), (2, 1)] := by
    decide
  have e2 : render_bresenham_line 3 (some ⟨0⟩) 2 1 0 0 = some [(2, 1), (1, 0), (0, 0)] := by
    decide
  have f1 : render_bresenham_line32 3 (some ⟨0⟩) 0 0 2 1 = some [(0, 0), (1, 1), (2, 1)] := by
    decide
  have f2 : render_bresenham_line32 3 (some ⟨0⟩) 2 1 0 0 = some [(2, 1), (1, 0), (0, 0)] := by
    decide
  have g1 : render_bresenham_line32 1 (some ⟨0⟩) 0 0 (-2147483648) 0 = some [(0, 0)] := by
    decide
  have g2 : render_bresenham_line32 1 (some ⟨0⟩) (-2147483648) 0 0 0 =
      some [(-2147483648, 0)] := by
    decide
  have k1 : ∀ pts, Plots 0 0 2 1 pts → pts = [(0, 0), (1, 1), (2, 1)] := by
    rintro pts ⟨n, hn⟩
    have h := hn 3 ⟨0⟩
    rw [e1] at h
    split_ifs at h
    exact (Option.some.inj h).symm
  have k2 : ∀ pts, Plots 2 1 0 0 pts → pts = [(2, 1), (1, 0), (0, 0)] := by
    rintro pts ⟨n, hn⟩
    have h := hn 3 ⟨0⟩
    rw [e2] at h
    split_ifs at h
    exact (Option.some.inj h).symm
  refine ⟨e1, e2, ?_, ?_, f1, f2, ?_, g1, g2, ?_⟩
  · rintro ⟨pts, h1, h2⟩
    have a1 := k1 pts h1
    have a2 := k2 _ h2
    rw [a1] at a2
    revert a2
    decide
  · rintro ⟨pts, pts', h1, h2, hset⟩
    have a1 := k1 pts h1
    have a2 := k2 pts' h2
    have hm := (hset (1, 1)).mp (by rw [a1]; decide)
    rw [a2] at hm
    revert hm
    decide
  · rintro ⟨pts, h1, h2⟩
    have a1 := plots32_eq_of_eval f1 h1
    have a2 := plots32_eq_of_eval f2 h2
    rw [a1] at a2
    revert a2
    decide
  · rintro ⟨pts, h1, h2⟩
    have a1 := plots32_eq_of_eval g1 h1
    have a2 := plots32_eq_of_eval g2 h2
    rw [a1] at a2
    revert a2
    decide

/-- C5 (amended): for all endpoints whose coordinates lie in
`[-2^29, 2^29 - 1]`, both directions of the 32-bit call plot the same number of
points, and the sequence for `(x2,y2) → (x1,y1)` is the reverse of the
sequence for `(x1,y1) → (x2,y2)` (so both are the same point set) if and only
if no interior driving step `0 < k < aDiff` is an exact half-pixel tie, that
is `2*aDiff` does not divide `2*bDiff*k + aDiff`, where
`aDiff = max(|dx|,|dy|)` and `bDiff = min(|dx|,|dy|)`. -/
theorem C5_reverse_iff_no_tie (x1 y1 x2 y2 : Int) (h : CoordsInRange x1 y1 x2 y2) :
    ∃ pts pts', Plots32 x1 y1 x2 y2 pts ∧ Plots32 x2 y2 x1 y1 pts' ∧
      pts'.length = pts.length ∧
      (pts'.reverse = pts ↔
        ∀ k : Int, 0 < k → k < max |x2 - x1| |y2 - y1| →
          ¬ (2 * max |x2 - x1| |y2 - y1| ∣
              2 * min |x2 - x1| |y2 - y1| * k + max |x2 - x1| |y2 - y1|)) := by
  obtain ⟨pts, pts', hp, hq, rest⟩ := exact_reverse_iff_no_tie x1 y1 x2 y2
  exact ⟨pts, pts', plots32_of_plots h hp, plots32_of_plots (coordsInRange_swap h) hq, rest⟩

/-- C5 (amended) at `(0,0) → (5,2)`, a segment without ties: the reverse call
plots the reverse sequence. -/
theorem C5_reverse_iff_no_tie_witness :
    CoordsInRange 0 0 5 2 ∧
    (∃ pts pts', Plots32 0 0 5 2 pts ∧ Plots32 5 2 0 0 pts' ∧
      pts'.length = pts.length ∧
      (pts'.reverse = pts ↔
        ∀ k : Int, 0 < k → k < max |(5 : Int) - 0| |(2 : Int) - 0| →
          ¬ (2 * max |(5 : Int) - 0| |(2 : Int) - 0| ∣
              2 * min |(5 : Int) - 0| |(2 : Int) - 0| * k +
                max |(5 : Int) - 0| |(2 : Int) - 0|))) ∧
    render_bresenham_line32 6 (some ⟨0⟩) 0 0 5 2 =
      some [(0, 0), (1, 0), (2, 1), (3, 1), (4, 2), (5, 2)] ∧
    render_bresenham_line32 6 (some ⟨0⟩) 5 2 0 0 =
      some [(5, 2), (4, 2), (3, 1), (2, 1), (1, 0), (0, 0)] :=
  ⟨by decide, C5_reverse_iff_no_tie 0 0 5 2 (by decide), by decide, by decide⟩

/-- C9 (as stated) fails for 32-bit `int`: take `dx = 1610612736`, `dy = 1`,
`x1 = INT_MIN`, `y1 = INT_MIN + 1`, `sx = 1`, `sy = -1` (all arguments of both
calls are valid `int`s).  In both calls `sign` reaches `0` after `805306367`
iterations and `bDiff + bDiff - aDiff - aDiff` then wraps to `1073741826`, so
`b` advances twice: point number `805306369` of `(0,0) → (dx,dy)` is
`(805306369, 2)`, and that of the mirrored call is
`(INT_MIN + 805306369, INT_MAX)` because `b` wraps, not
`(x1 + sx*805306369, y1 + sy*2)`. -/
theorem C9_overflow_counterexample :
    ((0 : Int) ≤ 1610612736 ∧ (0 : Int) ≤ 1 ∧ ((1 : Int) = 1 ∨ (1 : Int) = -1) ∧
      ((-1 : Int) = 1 ∨ (-1 : Int) = -1)) ∧
    ¬ ∃ pts, Plots32 0 0 1610612736 1 pts ∧
        Plots32 (-2147483648) (-2147483647) (-2147483648 + 1 * 1610612736)
          (-2147483647 + (-1) * 1)
          (pts.map (fun p => (-2147483648 + 1 * p.1, -2147483647 + (-1) * p.2))) := by
  refine ⟨⟨by decide, by decide, by decide, by decide⟩, ?_⟩
  rintro ⟨pts, hp, hq⟩
  obtain ⟨hne0, hst0⟩ := overshoot32 (setup32 0 0 1610612736 1).1
    (setup32 0 0 1610612736 1).2 805306367 (by decide) (by decide) (by decide)
    (by decide) (by decide) (by decide) (by decide) (by decide)
  obtain ⟨hne1, hst1⟩ := overshoot32
    (setup32 (-2147483648) (-2147483647) (-2147483648 + 1 * 1610612736)
      (-2147483647 + (-1) * 1)).1
    (setup32 (-2147483648) (-2147483647) (-2147483648 + 1 * 1610612736)
      (-2147483647 + (-1) * 1)).2 805306367 (by decide) (by decide) (by decide)
    (by decide) (by decide) (by decide) (by decide) (by decide)
  have h0 := plots32_nth hp (805306367 + 2) hne0
  have h1 := plots32_nth hq (805306367 + 2) hne1
  rw [hst0] at h0
  rw [hst1] at h1
  have d0 : deref_xy (setup32 0 0 1610612736 1).1
      { a := (setup32 0 0 1610612736 1).2.a + ((805306367 : Nat) : Int) + 2,
        b := wrap32 (wrap32 ((setup32 0 0 1610612736 1).2.b +
          (setup32 0 0 1610612736 1).1.bInc) + (setup32 0 0 1610612736 1).1.bInc),
        sign := -2147483644 } = (805306369, 2) := by decide
  have d1 : deref_xy
      (setup32 (-2147483648) (-2147483647) (-2147483648 + 1 * 1610612736)
        (-2147483647 + (-1) * 1)).1
      { a := (setup32 (-2147483648) (-2147483647) (-2147483648 + 1 * 1610612736)
            (-2147483647 + (-1) * 1)).2.a + ((805306367 : Nat) : Int) + 2,
        b := wrap32 (wrap32
          ((setup32 (-2147483648) (-2147483647) (-2147483648 + 1 * 1610612736)
              (-2147483647 + (-1) * 1)).2.b +
            (setup32 (-2147483648) (-2147483647) (-2147483648 + 1 * 1610612736)
              (-2147483647 + (-1) * 1)).1.bInc) +
          (setup32 (-2147483648) (-2147483647) (-2147483648 + 1 * 1610612736)
            (-2147483647 + (-1) * 1)).1.bInc),
        sign := -2147483644 } = (-1342177279, 2147483647) := by decide
  rw [d0] at h0
  rw [d1, List.getElem?_map, h0] at h1
  have h2 := congrArg (fun o : Option Point => o.map Prod.snd) h1
  revert h2
  decide

/-- C9 (amended): negative-direction octants mirror their positive
counterparts: for all integers `x1`, `y1`, all `dx ≥ 0`, `dy ≥ 0` and signs
`sx, sy ∈ {+1,-1}` such that the coordinates of both calls lie in
`[-2^29, 2^29 - 1]`, the `k`-th point the 32-bit call plots for
`(x1,y1) → (x1+sx*dx, y1+sy*dy)` is `(x1 + sx*u_k, y1 + sy*v_k)`, where
`(u_k, v_k)` is the `k`-th point it plots for `(0,0) → (dx,dy)`. -/
theorem C9_octant_mirror (x1 y1 dx dy sx sy : Int) (hdx : 0 ≤ dx) (hdy : 0 ≤ dy)
    (hsx : sx = 1 ∨ sx = -1) (hsy : sy = 1 ∨ sy = -1)
    (h0 : CoordsInRange 0 0 dx dy)
    (h : CoordsInRange x1 y1 (x1 + sx * dx) (y1 + sy * dy)) :
    ∃ pts, Plots32 0 0 dx dy pts ∧
      Plots32 x1 y1 (x1 + sx * dx) (y1 + sy * dy)
        (pts.map (fun p => (x1 + sx * p.1, y1 + sy * p.2))) := by
  obtain ⟨pts, hp, hq⟩ := exact_octant_mirror x1 y1 dx dy sx sy hdx hdy hsx hsy
  exact ⟨pts, plots32_of_plots h0 hp, plots32_of_plots h hq⟩

/-- C9 (amended) at the spec's scenarios: `(0,0) → (-5,3)` mirrors
`(0,0) → (5,3)` in `x`, and `(0,0) → (-5,-5)` mirrors `(0,0) → (5,5)` in both
coordinates. -/
theorem C9_octant_mirror_witness :
    ((0 : Int) ≤ 5 ∧ (0 : Int) ≤ 3 ∧ ((-1 : Int) = 1 ∨ (-1 : Int) = -1) ∧
      ((1 : Int) = 1 ∨ (1 : Int) = -1) ∧ CoordsInRange 0 0 5 3 ∧
      CoordsInRange 0 0 (0 + (-1) * 5) (0 + 1 * 3)) ∧
    (∃ pts, Plots32 0 0 5 3 pts ∧
      Plots32 0 0 (0 + (-1) * 5) (0 + 1 * 3)
        (pts.map (fun p => (0 + (-1) * p.1, 0 + 1 * p.2)))) ∧
    render_bresenham_line32 6 (some ⟨0⟩) 0 0 5 3 =
      some [(0, 0), (1, 1), (2, 1), (3, 2), (4, 2), (5, 3)] ∧
    render_bresenham_line32 6 (some ⟨0⟩) 0 0 (-5) 3 =
      some [(0, 0), (-1, 1), (-2, 1), (-3, 2), (-4, 2), (-5, 3)] ∧
    render_bresenham_line32 6 (some ⟨0⟩) 0 0 5 5 =
      some [(0, 0), (1, 1), (2, 2), (3, 3), (4, 4), (5, 5)] ∧
    render_bresenham_line32 6 (some ⟨0⟩) 0 0 (-5) (-5) =
      some [(0, 0), (-1, -1), (-2, -2), (-3, -3), (-4, -4), (-5, -5)] :=
  ⟨⟨by decide, by decide, by decide, by decide, by decide, by decide⟩,
    C9_octant_mirror 0 0 5 3 (-1) 1 (by decide) (by decide) (by decide) (by decide)
      (by decide) (by decide),
    by decide, by decide, by decide, by decide⟩

/-- C10 (as stated) fails for 32-bit `int`: `(0,0) → (INT_MIN,0)` plots the
single point `(0,0)`, while its transpose `(0,0) → (0,INT_MIN)` is still in
the loop after the first plot (`a = -1`, `aTerm = INT_MAX`), so it plots at
least two points and is not the transposed sequence. -/
theorem C10_overflow_counterexample :
    render_bresenham_line32 1 (some ⟨0⟩) 0 0 (-2147483648) 0 = some [(0, 0)] ∧
    render_bresenham_line32 1 (some ⟨0⟩) 0 0 0 (-2147483648) = none ∧
    ¬ ∃ pts, Plots32 0 0 (-2147483648) 0 pts ∧
        Plots32 0 0 0 (-2147483648) (pts.map Prod.swap) := by
  have e : render_bresenham_line32 1 (some ⟨0⟩) 0 0 (-2147483648) 0 = some [(0, 0)] := by
    decide
  refine ⟨e, by decide, ?_⟩
  rintro ⟨pts, hp, hq⟩
  rw [plots32_eq_of_eval e hp] at hq
  have hne : ∀ j, j ≤ 1 →
      ((loop_body32 (setup32 0 0 0 (-2147483648)).1)^[j] (setup32 0 0 0 (-2147483648)).2).a ≠
        (setup32 0 0 0 (-2147483648)).1.aTerm := by
    intro j hj
    interval_cases j <;> decide
  have h1 := plots32_nth hq 1 hne
  simp at h1

/-- C10 (amended): steep lines are the transpose of shallow ones: for all
endpoints whose coordinates lie in `[-2^29, 2^29 - 1]` the sequence the 32-bit
call plots for `(y1,x1) → (y2,x2)` is the sequence it plots for
`(x1,y1) → (x2,y2)` with the two coordinates of every point swapped (also
when `|dx| = |dy|`). -/
theorem C10_steep_is_transpose (x1 y1 x2 y2 : Int) (h : CoordsInRange x1 y1 x2 y2) :
    ∃ pts, Plots32 x1 y1 x2 y2 pts ∧ Plots32 y1 x1 y2 x2 (pts.map Prod.swap) := by
  obtain ⟨pts, hp, hq⟩ := exact_steep_is_transpose.1 x1 y1 x2 y2
  exact ⟨pts, plots32_of_plots h hp, plots32_of_plots (coordsInRange_transpose h) hq⟩

/-- C10 (amended) at the spec's scenario: `(0,0) → (2,5)` plots
`(0,0),(0,1),(1,2),(1,3),(2,4),(2,5)`, the transpose of the `(0,0) → (5,2)`
result. -/
theorem C10_steep_is_transpose_witness :
    CoordsInRange 0 0 5 2 ∧
    (∃ pts, Plots32 0 0 5 2 pts ∧ Plots32 0 0 2 5 (pts.map Prod.swap)) ∧
    render_bresenham_line32 6 (some ⟨0⟩) 0 0 2 5 =
      some [(0, 0), (0, 1), (1, 2), (1, 3), (2, 4), (2, 5)] ∧
    render_bresenham_line32 6 (some ⟨0⟩) 0 0 5 2 =
      some [(0, 0), (1, 0), (2, 1), (3, 1), (4, 2), (5, 2)] :=
  ⟨by decide, C10_steep_is_transpose 0 0 5 2 (by decide), by decide, by decide⟩

/-- C11 (as stated) fails for 32-bit `int`: for `(1,1) → (INT_MIN+1,1)`,
`aDiff = max(|dx|,|dy|) = 2^31 > 0`, but the code plots the single point
`(1,1)` instead of one point for each `k = 0..aDiff`. -/
theorem C11_overflow_counterexample :
    (0 : Int) < max |(-2147483647 : Int) - 1| |(1 : Int) - 1| ∧
    render_bresenham_line32 1 (some ⟨0⟩) 1 1 (-2147483647) 1 = some [(1, 1)] ∧
    ¬ ∃ pts, Plots32 1 1 (-2147483647) 1 pts ∧
        (pts.length : Int) = max |(-2147483647 : Int) - 1| |(1 : Int) - 1| + 1 := by
  have e : render_bresenham_line32 1 (some ⟨0⟩) 1 1 (-2147483647) 1 = some [(1, 1)] := by
    decide
  refine ⟨by norm_num, e, ?_⟩
  rintro ⟨pts, hp, hl⟩
  rw [plots32_eq_of_eval e hp] at hl
  norm_num at hl

/-- C11 (amended): closed form of the rasterization: for all endpoints whose
coordinates lie in `[-2^29, 2^29 - 1]`, with `aDiff = max(|dx|,|dy|) > 0` and
`bDiff = min(|dx|,|dy|)`, the sequence plotted by the 32-bit call has
`aDiff + 1` points and the `k`-th plotted point has driving coordinate
`start + k*aInc` and secondary coordinate
`start + bInc * ⌊(2*bDiff*k + aDiff) / (2*aDiff)⌋` (the integer quotient `q`
with `2*aDiff*q ≤ 2*bDiff*k + aDiff < 2*aDiff*(q+1)`); at an exact half-pixel
tie `2*bDiff*k + aDiff = 2*aDiff*j` the plotted offset is `j`, i.e. the
secondary axis has advanced toward the end point. -/
theorem C11_closed_form (x1 y1 x2 y2 : Int) (h : CoordsInRange x1 y1 x2 y2)
    (hA : 0 < max |x2 - x1| |y2 - y1|) :
    ∃ pts, Plots32 x1 y1 x2 y2 pts ∧
      (pts.length : Int) = max |x2 - x1| |y2 - y1| + 1 ∧
      ∀ (k : Nat) (hk : k < pts.length),
        driving x1 y1 x2 y2 pts[k] =
          driving x1 y1 x2 y2 (x1, y1) + k * (setup32 x1 y1 x2 y2).1.aInc ∧
        secondary x1 y1 x2 y2 pts[k] =
          secondary x1 y1 x2 y2 (x1, y1) + (setup32 x1 y1 x2 y2).1.bInc *
            ((2 * min |x2 - x1| |y2 - y1| * k + max |x2 - x1| |y2 - y1|) /
              (2 * max |x2 - x1| |y2 - y1|)) ∧
        2 * max |x2 - x1| |y2 - y1| *
            ((2 * min |x2 - x1| |y2 - y1| * k + max |x2 - x1| |y2 - y1|) /
              (2 * max |x2 - x1| |y2 - y1|)) ≤
          2 * min |x2 - x1| |y2 - y1| * k + max |x2 - x1| |y2 - y1| ∧
        2 * min |x2 - x1| |y2 - y1| * k + max |x2 - x1| |y2 - y1| <
          2 * max |x2 - x1| |y2 - y1| *
            ((2 * min |x2 - x1| |y2 - y1| * k + max |x2 - x1| |y2 - y1|) /
              (2 * max |x2 - x1| |y2 - y1|) + 1) ∧
        ∀ j : Int,
          2 * min |x2 - x1| |y2 - y1| * k + max |x2 - x1| |y2 - y1| =
              2 * max |x2 - x1| |y2 - y1| * j →
            secondary x1 y1 x2 y2 pts[k] =
              secondary x1 y1 x2 y2 (x1, y1) + (setup32 x1 y1 x2 y2).1.bInc * j := by
  rw [setup32_eq_of_range h]
  obtain ⟨pts, hp, rest⟩ := exact_closed_form x1 y1 x2 y2 hA
  exact ⟨pts, plots32_of_plots h hp, rest⟩

/-- C11 (amended) at the spec's scenario `(0,0) → (5,2)`, which plots exactly
`(0,0),(1,0),(2,1),(3,1),(4,2),(5,2)`. -/
theorem C11_closed_form_witness :
    (CoordsInRange 0 0 5 2 ∧ (0 : Int) < max |(5 : Int) - 0| |(2 : Int) - 0|) ∧
    (∃ pts, Plots32 0 0 5 2 pts ∧ (pts.length : Int) = 6 ∧
      ∀ (k : Nat) (hk : k < pts.length),
        pts[k] = ((k : Int), (2 * 2 * (k : Int) + 5) / (2 * 5))) ∧
    render_bresenham_line32 6 (some ⟨0⟩) 0 0 5 2 =
      some [(0, 0), (1, 0), (2, 1), (3, 1), (4, 2), (5, 2)] := by
  have h5 : |(5 : Int) - 0| = 5 := by norm_num
  have h2 : |(2 : Int) - 0| = 2 := by norm_num
  have hmax : max |(5 : Int) - 0| |(2 : Int) - 0| = 5 := by rw [h5, h2]; rfl
  have hmin : min |(5 : Int) - 0| |(2 : Int) - 0| = 2 := by rw [h5, h2]; rfl
  have hpos : (0 : Int) < max |(5 : Int) - 0| |(2 : Int) - 0| := by rw [hmax]; decide
  refine ⟨⟨by decide, hpos⟩, ?_, by decide⟩
  obtain ⟨pts, hp, hlen, hpt⟩ := C11_closed_form 0 0 5 2 (by decide) hpos
  refine ⟨pts, hp, by rw [hlen, hmax]; rfl, ?_⟩
  intro k hk
  obtain ⟨hd, hs, -⟩ := hpt k hk
  have hsh : |(2 : Int) - 0| ≤ |(5 : Int) - 0| := by rw [h5, h2]; decide
  have hset : setup32 0 0 5 2 =
      ({ shallow := true, aDiff := 5, bDiff := 2, aInc := 1, bInc := 1, aTerm := 6 },
       { a := 0, b := 0, sign := -1 }) := by decide
  simp only [driving, secondary, if_pos hsh, hset, hmax, hmin] at hd hs
  apply Prod.ext
  · simpa using hd
  · simpa using hs

/-- C12 (as stated) fails for 32-bit `int`: the horizontal segment
`(0,0) → (INT_MIN,0)` plots the single point `(0,0)`, not `(-k, 0)` for
`k = 0..2^31`. -/
theorem C12_overflow_counterexample :
    render_bresenham_line32 1 (some ⟨0⟩) 0 0 (-2147483648) 0 = some [(0, 0)] ∧
    ¬ Plots32 0 0 (-2147483648) 0
        ((List.range (((-2147483648 : Int) - 0).natAbs + 1)).map
          (fun k : Nat => ((0 : Int) + (k : Int) * Int.sign ((-2147483648 : Int) - 0),
            (0 : Int)))) := by
  have e : render_bresenham_line32 1 (some ⟨0⟩) 0 0 (-2147483648) 0 = some [(0, 0)] := by
    decide
  refine ⟨e, ?_⟩
  intro hp
  have hl := congrArg List.length (plots32_eq_of_eval e hp)
  have hn : ((-2147483648 : Int) - 0).natAbs = 2147483648 := by decide
  rw [List.length_map, List.length_range, hn] at hl
  revert hl
  decide

/-- C12 (amended): axis-aligned lines are exact: for all endpoints whose
coordinates lie in `[-2^29, 2^29 - 1]`, if `y1 = y2` the 32-bit call plots
`(x1 + k*s, y1)` for `k = 0..|x2-x1|` with `s` the sign of `x2-x1`, and if
`x1 = x2` it plots `(x1, y1 + k*s)` for `k = 0..|y2-y1|` with `s` the sign of
`y2-y1`; the secondary coordinate never changes. -/
theorem C12_axis_aligned_exact (x1 y1 x2 y2 : Int) (h : CoordsInRange x1 y1 x2 y2) :
    (y1 = y2 →
      Plots32 x1 y1 x2 y2
        ((List.range ((x2 - x1).natAbs + 1)).map
          (fun k : Nat => (x1 + (k : Int) * Int.sign (x2 - x1), y1)))) ∧
    (x1 = x2 →
      Plots32 x1 y1 x2 y2
        ((List.range ((y2 - y1).natAbs + 1)).map
          (fun k : Nat => (x1, y1 + (k : Int) * Int.sign (y2 - y1))))) := by
  constructor
  · intro hy
    subst hy
    exact plots32_of_plots h (exact_axis_aligned.1 x1 y1 x2)
  · intro hx
    subst hx
    exact plots32_of_plots h (exact_axis_aligned.2.1 x1 y1 y2)

/-- C12 (amended) at the spec's scenario: `(0,0) → (5,0)` plots
`(0,0),(1,0),(2,0),(3,0),(4,0),(5,0)`. -/
theorem C12_axis_aligned_exact_witness :
    CoordsInRange 0 0 5 0 ∧
    Plots32 0 0 5 0
      ((List.range (((5 : Int) - 0).natAbs + 1)).map
        (fun k : Nat => ((0 : Int) + (k : Int) * Int.sign ((5 : Int) - 0), (0 : Int)))) ∧
    (List.range (((5 : Int) - 0).natAbs + 1)).map
        (fun k : Nat => ((0 : Int) + (k : Int) * Int.sign ((5 : Int) - 0), (0 : Int))) =
      [(0, 0), (1, 0), (2, 0), (3, 0), (4, 0), (5, 0)] ∧
    render_bresenham_line32 6 (some ⟨0⟩) 0 0 5 0 =
      some [(0, 0), (1, 0), (2, 0), (3, 0), (4, 0), (5, 0)] :=
  ⟨by decide, (C12_axis_aligned_exact 0 0 5 0 (by decide)).1 rfl, by decide, by decide⟩

/-- C13 (as stated) fails for 32-bit `int`: for
`(INT_MIN,INT_MIN) → (INT_MAX,INT_MAX)`, where `|dx| = |dy| = 2^32 - 1`, both
differences wrap to `-1` and the code plots two points, not the `2^32` points
of the diagonal. -/
theorem C13_overflow_counterexample :
    |(2147483647 : Int) - (-2147483648)| = |(2147483647 : Int) - (-2147483648)| ∧
    render_bresenham_line32 2 (some ⟨0⟩) (-2147483648) (-2147483648) 2147483647 2147483647 =
      some [(-2147483648, -2147483648), (2147483647, 2147483647)] ∧
    ¬ Plots32 (-2147483648) (-2147483648) 2147483647 2147483647
        ((List.range (((2147483647 : Int) - (-2147483648)).natAbs + 1)).map
          (fun k : Nat =>
            ((-2147483648 : Int) + (k : Int) * Int.sign ((2147483647 : Int) - (-2147483648)),
             (-2147483648 : Int) +
               (k : Int) * Int.sign ((2147483647 : Int) - (-2147483648))))) := by
  have e : render_bresenham_line32 2 (some ⟨0⟩) (-2147483648) (-2147483648) 2147483647
      2147483647 = some [(-2147483648, -2147483648), (2147483647, 2147483647)] := by
    decide
  refine ⟨rfl, e, ?_⟩
  intro hp
  have hl := congrArg List.length (plots32_eq_of_eval e hp)
  have hn : ((2147483647 : Int) - (-2147483648)).natAbs = 4294967295 := by decide
  rw [List.length_map, List.length_range, hn] at hl
  revert hl
  decide

/-- C13 (amended): diagonal lines are exact: for all endpoints whose
coordinates lie in `[-2^29, 2^29 - 1]` with `|x2-x1| = |y2-y1| = d`, the
sequence plotted by the 32-bit call is `(x1 + k*sx, y1 + k*sy)` for
`k = 0..d`, where `sx`, `sy` are the signs of `dx` and `dy`; both coordinates
advance at every step. -/
theorem C13_diagonal_exact (x1 y1 x2 y2 : Int) (h : CoordsInRange x1 y1 x2 y2)
    (hd : |x2 - x1| = |y2 - y1|) :
    Plots32 x1 y1 x2 y2
      ((List.range ((x2 - x1).natAbs + 1)).map
        (fun k : Nat => (x1 + (k : Int) * Int.sign (x2 - x1),
          y1 + (k : Int) * Int.sign (y2 - y1)))) :=
  plots32_of_plots h (exact_diagonal x1 y1 x2 y2 hd)

/-- C13 (amended) at the spec's scenarios: `(0,0) → (5,5)` plots
`(0,0),(1,1),(2,2),(3,3),(4,4),(5,5)`, and `(0,0) → (-5,-5)` its mirror image. -/
theorem C13_diagonal_exact_witness :
    (CoordsInRange 0 0 5 5 ∧ |(5 : Int) - 0| = |(5 : Int) - 0|) ∧
    Plots32 0 0 5 5
      ((List.range (((5 : Int) - 0).natAbs + 1)).map
        (fun k : Nat => ((0 : Int) + (k : Int) * Int.sign ((5 : Int) - 0),
          (0 : Int) + (k : Int) * Int.sign ((5 : Int) - 0)))) ∧
    (List.range (((5 : Int) - 0).natAbs + 1)).map
        (fun k : Nat => ((0 : Int) + (k : Int) * Int.sign ((5 : Int) - 0),
          (0 : Int) + (k : Int) * Int.sign ((5 : Int) - 0))) =
      [(0, 0), (1, 1), (2, 2), (3, 3), (4, 4), (5, 5)] ∧
    render_bresenham_line32 6 (some ⟨0⟩) 0 0 5 5 =
      some [(0, 0), (1, 1), (2, 2), (3, 3), (4, 4), (5, 5)] ∧
    render_bresenham_line32 6 (some ⟨0⟩) 0 0 (-5) (-5) =
      some [(0, 0), (-1, -1), (-2, -2), (-3, -3), (-4, -4), (-5, -5)] :=
  ⟨⟨by decide, rfl⟩, C13_diagonal_exact 0 0 5 5 (by decide) rfl, by decide, by decide,
    by decide⟩

/-- C14 (as stated) fails for 32-bit `int`: for `(0,0) → (INT_MIN,0)` we have
`|dy| ≤ |dx|`, yet `xDiffAbs` wraps to `INT_MIN`, the code takes the steep
branch (`y` drives) and `aDiff = 0`, not `max(|dx|,|dy|)`. -/
theorem C14_overflow_counterexample :
    |(0 : Int) - 0| ≤ |(-2147483648 : Int) - 0| ∧
    (setup32 0 0 (-2147483648) 0).1.shallow = false ∧
    (setup32 0 0 (-2147483648) 0).1.aDiff = 0 ∧
    ¬ ((setup32 0 0 (-2147483648) 0).1.shallow = true ↔
        |(0 : Int) - 0| ≤ |(-2147483648 : Int) - 0|) ∧
    ¬ ((setup32 0 0 (-2147483648) 0).1.aDiff =
        max |(-2147483648 : Int) - 0| |(0 : Int) - 0|) := by
  have hle : |(0 : Int) - 0| ≤ |(-2147483648 : Int) - 0| := by norm_num
  have hs : (setup32 0 0 (-2147483648) 0).1.shallow = false := by decide
  have ha : (setup32 0 0 (-2147483648) 0).1.aDiff = 0 := by decide
  refine ⟨hle, hs, ha, ?_, ?_⟩
  · rw [hs]
    intro hiff
    exact Bool.false_ne_true (hiff.mpr hle)
  · rw [ha]
    norm_num

/-- C14 (amended): for all endpoints whose coordinates lie in
`[-2^29, 2^29 - 1]`, the path plotted by the 32-bit call is traversed in order
and is 8-connected: the driving axis is `x` exactly when `|dx| ≥ |dy|`
(otherwise `y` drives), with `aDiff = max(|dx|,|dy|)` and
`bDiff = min(|dx|,|dy|)`; `aInc` and `bInc` are `+1` or `-1`; between any two
consecutive plotted points the driving coordinate changes by exactly `aInc`
and gets one closer to the end point, and the secondary coordinate changes by
`0` or by `bInc` and never gets farther from the end point. -/
theorem C14_eight_connected (x1 y1 x2 y2 : Int) (h : CoordsInRange x1 y1 x2 y2) :
    ((setup32 x1 y1 x2 y2).1.shallow = true ↔ |y2 - y1| ≤ |x2 - x1|) ∧
    (setup32 x1 y1 x2 y2).1.aDiff = max |x2 - x1| |y2 - y1| ∧
    (setup32 x1 y1 x2 y2).1.bDiff = min |x2 - x1| |y2 - y1| ∧
    ((setup32 x1 y1 x2 y2).1.aInc = 1 ∨ (setup32 x1 y1 x2 y2).1.aInc = -1) ∧
    ((setup32 x1 y1 x2 y2).1.bInc = 1 ∨ (setup32 x1 y1 x2 y2).1.bInc = -1) ∧
    ∃ pts, Plots32 x1 y1 x2 y2 pts ∧
      ∀ (k : Nat) (p q : Point), pts[k]? = some p → pts[k + 1]? = some q →
        driving x1 y1 x2 y2 q = driving x1 y1 x2 y2 p + (setup32 x1 y1 x2 y2).1.aInc ∧
        |driving x1 y1 x2 y2 (x2, y2) - driving x1 y1 x2 y2 q| =
          |driving x1 y1 x2 y2 (x2, y2) - driving x1 y1 x2 y2 p| - 1 ∧
        (secondary x1 y1 x2 y2 q = secondary x1 y1 x2 y2 p ∨
          secondary x1 y1 x2 y2 q =
            secondary x1 y1 x2 y2 p + (setup32 x1 y1 x2 y2).1.bInc) ∧
        |secondary x1 y1 x2 y2 (x2, y2) - secondary x1 y1 x2 y2 q| ≤
          |secondary x1 y1 x2 y2 (x2, y2) - secondary x1 y1 x2 y2 p| := by
  rw [setup32_eq_of_range h]
  obtain ⟨a1, a2, a3, a4, a5, pts, hp, rest⟩ := exact_eight_connected x1 y1 x2 y2
  exact ⟨a1, a2, a3, a4, a5, pts, plots32_of_plots h hp, rest⟩

/-- C14 (amended) at `(0,0) → (5,2)`: `x` drives with `aInc = bInc = 1`, and
consecutive points are 8-connected neighbours. -/
theorem C14_eight_connected_witness :
    CoordsInRange 0 0 5 2 ∧
    ((setup32 0 0 5 2).1.shallow = true ∧ (setup32 0 0 5 2).1.aInc = 1 ∧
      (setup32 0 0 5 2).1.bInc = 1) ∧
    (∃ pts, Plots32 0 0 5 2 pts ∧
      ∀ (k : Nat) (p q : Point), pts[k]? = some p → pts[k + 1]? = some q →
        driving 0 0 5 2 q = driving 0 0 5 2 p + (setup32 0 0 5 2).1.aInc ∧
        (secondary 0 0 5 2 q = secondary 0 0 5 2 p ∨
          secondary 0 0 5 2 q = secondary 0 0 5 2 p + (setup32 0 0 5 2).1.bInc)) ∧
    render_bresenham_line32 6 (some ⟨0⟩) 0 0 5 2 =
      some [(0, 0), (1, 0), (2, 1), (3, 1), (4, 2), (5, 2)] := by
  refine ⟨by decide, by decide, ?_, by decide⟩
  obtain ⟨-, -, -, -, -, pts, hp, hstep⟩ := C14_eight_connected 0 0 5 2 (by decide)
  refine ⟨pts, hp, ?_⟩
  intro k p q hkp hkq
  obtain ⟨b1, -, b3, -⟩ := hstep k p q hkp hkq
  exact ⟨b1, b3⟩

/-- C15 (as stated) fails for 32-bit `int`: for
`(-1073741829,0) → (1073741829,0)` the difference wraps to a negative value,
`aInc = -1`, and the second plotted point `(-1073741830,0)` lies outside the
bounding box of the endpoints. -/
theorem C15_overflow_counterexample :
    deref_xy (setup32 (-1073741829) 0 1073741829 0).1
        ((loop_body32 (setup32 (-1073741829) 0 1073741829 0).1)^[1]
          (setup32 (-1073741829) 0 1073741829 0).2) = (-1073741830, 0) ∧
    ¬ ∃ pts, Plots32 (-1073741829) 0 1073741829 0 pts ∧
        ∀ p ∈ pts, min (-1073741829 : Int) 1073741829 ≤ p.1 ∧
          p.1 ≤ max (-1073741829 : Int) 1073741829 ∧
          min (0 : Int) 0 ≤ p.2 ∧ p.2 ≤ max (0 : Int) 0 := by
  have e : deref_xy (setup32 (-1073741829) 0 1073741829 0).1
      ((loop_body32 (setup32 (-1073741829) 0 1073741829 0).1)^[1]
        (setup32 (-1073741829) 0 1073741829 0).2) = (-1073741830, 0) := by
    decide
  refine ⟨e, ?_⟩
  rintro ⟨pts, hp, hbox⟩
  have hne : ∀ j, j ≤ 1 →
      ((loop_body32 (setup32 (-1073741829) 0 1073741829 0).1)^[j]
          (setup32 (-1073741829) 0 1073741829 0).2).a ≠
        (setup32 (-1073741829) 0 1073741829 0).1.aTerm := by
    intro j hj
    interval_cases j <;> decide
  have h1 := plots32_nth hp 1 hne
  rw [e] at h1
  have hmem : ((-1073741830 : Int), (0 : Int)) ∈ pts := List.getElem?_mem h1
  have hb := (hbox _ hmem).1
  revert hb
  decide

/-- C15 (amended): for all endpoints whose coordinates lie in
`[-2^29, 2^29 - 1]`, every point plotted by the 32-bit call lies inside the
axis-aligned bounding box of the two endpoints, `min(x1,x2) ≤ x ≤ max(x1,x2)`
and `min(y1,y2) ≤ y ≤ max(y1,y2)`; so when both endpoints are on a `w × h`
surface, every plotted point is on it. -/
theorem C15_points_in_bounding_box (x1 y1 x2 y2 : Int) (h : CoordsInRange x1 y1 x2 y2) :
    ∃ pts, Plots32 x1 y1 x2 y2 pts ∧
      (∀ p ∈ pts, min x1 x2 ≤ p.1 ∧ p.1 ≤ max x1 x2 ∧ min y1 y2 ≤ p.2 ∧ p.2 ≤ max y1 y2) ∧
      (∀ w h : Int, 0 ≤ x1 → x1 < w → 0 ≤ x2 → x2 < w → 0 ≤ y1 → y1 < h → 0 ≤ y2 → y2 < h →
        ∀ p ∈ pts, 0 ≤ p.1 ∧ p.1 < w ∧ 0 ≤ p.2 ∧ p.2 < h) := by
  obtain ⟨pts, hp, rest⟩ := exact_points_in_bounding_box x1 y1 x2 y2
  exact ⟨pts, plots32_of_plots h hp, rest⟩

/-- C15 (amended) for a segment on the 800 × 600 surface of `main.c`,
`(20,579) → (779,20)`. -/
theorem C15_points_in_bounding_box_witness :
    CoordsInRange 20 579 779 20 ∧
    ∃ pts, Plots32 20 579 779 20 pts ∧
      (∀ p ∈ pts, min (20 : Int) 779 ≤ p.1 ∧ p.1 ≤ max (20 : Int) 779 ∧
        min (579 : Int) 20 ≤ p.2 ∧ p.2 ≤ max (579 : Int) 20) ∧
      (∀ p ∈ pts, 0 ≤ p.1 ∧ p.1 < 800 ∧ 0 ≤ p.2 ∧ p.2 < 600) := by
  refine ⟨by decide, ?_⟩
  obtain ⟨pts, hp, hbox, hsurf⟩ := C15_points_in_bounding_box 20 579 779 20 (by decide)
  exact ⟨pts, hp, hbox, hsurf 800 600 (by decide) (by decide) (by decide) (by decide)
    (by decide) (by decide) (by decide) (by decide)⟩

/-- C16 (as stated) fails for 32-bit `int`: `(INT_MIN,0) → (INT_MAX-1,0)` plots
`(INT_MIN,0),(INT_MAX,0),(INT_MAX-1,0)`, while its translate by `(1,0)`,
`(INT_MIN+1,0) → (INT_MAX,0)`, plots `(INT_MIN+1,0),(INT_MIN,0),(INT_MAX,0)`,
which is not the first sequence with `(1,0)` added to every point. -/
theorem C16_overflow_counterexample :
    render_bresenham_line32 3 (some ⟨0⟩) (-2147483648) 0 2147483646 0 =
      some [(-2147483648, 0), (2147483647, 0), (2147483646, 0)] ∧
    render_bresenham_line32 3 (some ⟨0⟩) (-2147483648 + 1) (0 + 0) (2147483646 + 1) (0 + 0) =
      some [(-2147483647, 0), (-2147483648, 0), (2147483647, 0)] ∧
    ¬ ∃ pts, Plots32 (-2147483648) 0 2147483646 0 pts ∧
        Plots32 (-2147483648 + 1) (0 + 0) (2147483646 + 1) (0 + 0)
          (pts.map (fun p => (p.1 + 1, p.2 + 0))) := by
  have e1 : render_bresenham_line32 3 (some ⟨0⟩) (-2147483648) 0 2147483646 0 =
      some [(-2147483648, 0), (2147483647, 0), (2147483646, 0)] := by
    decide
  have e2 : render_bresenham_line32 3 (some ⟨0⟩) (-2147483648 + 1) (0 + 0) (2147483646 + 1)
      (0 + 0) = some [(-2147483647, 0), (-2147483648, 0), (2147483647, 0)] := by
    decide
  refine ⟨e1, e2, ?_⟩
  rintro ⟨pts, hp, hq⟩
  rw [plots32_eq_of_eval e1 hp] at hq
  have := plots32_eq_of_eval e2 hq
  revert this
  decide

/-- C16 (amended): translation invariance: whenever the coordinates of both
the original and the translated endpoints lie in `[-2^29, 2^29 - 1]`, the
sequence the 32-bit call plots for `(x1+tx, y1+ty) → (x2+tx, y2+ty)` is the
sequence it plots for `(x1,y1) → (x2,y2)` with `(tx,ty)` added to every point. -/
theorem C16_translation_invariance (x1 y1 x2 y2 tx ty : Int)
    (h : CoordsInRange x1 y1 x2 y2)
    (ht : CoordsInRange (x1 + tx) (y1 + ty) (x2 + tx) (y2 + ty)) :
    ∃ pts, Plots32 x1 y1 x2 y2 pts ∧
      Plots32 (x1 + tx) (y1 + ty) (x2 + tx) (y2 + ty)
        (pts.map (fun p => (p.1 + tx, p.2 + ty))) := by
  obtain ⟨pts, hp, hq⟩ := exact_translation_invariance x1 y1 x2 y2 tx ty
  exact ⟨pts, plots32_of_plots h hp, plots32_of_plots ht hq⟩

/-- C16 (amended) at `(0,0) → (5,2)` translated by `(100,-7)`. -/
theorem C16_translation_invariance_witness :
    (CoordsInRange 0 0 5 2 ∧ CoordsInRange (0 + 100) (0 + -7) (5 + 100) (2 + -7)) ∧
    (∃ pts, Plots32 0 0 5 2 pts ∧
      Plots32 (0 + 100) (0 + -7) (5 + 100) (2 + -7)
        (pts.map (fun p => (p.1 + 100, p.2 + -7)))) ∧
    render_bresenham_line32 6 (some ⟨0⟩) 100 (-7) 105 (-5) =
      some [(100, -7), (101, -7), (102, -6), (103, -6), (104, -5), (105, -5)] :=
  ⟨⟨by decide, by decide⟩,
    C16_translation_invariance 0 0 5 2 100 (-7) (by decide) (by decide), by decide⟩

/-- C17: no 32-bit overflow for realistic coordinates: if all four
coordinates lie in `[-2^29, 2^29 - 1]` (`2^29 = 536870912`), then every
intermediate value (`xDiff`, `yDiff`, their absolute values,
`xDiffAbs - yDiffAbs`, `bDiff + bDiff`, `bDiff + bDiff - aDiff`,
`bDiff + bDiff - aDiff - aDiff`, `aTerm`, and every value taken by `a`, `b`
and `sign` up to the exit of the loop) lies in `[-2^31, 2^31 - 1]`, and the
model with 32-bit wrap-around arithmetic gives the same result as the
exact-integer model for every iteration budget and renderer. -/
theorem C17_no_overflow_32bit (x1 y1 x2 y2 : Int)
    (hx1 : -536870912 ≤ x1 ∧ x1 ≤ 536870911) (hy1 : -536870912 ≤ y1 ∧ y1 ≤ 536870911)
    (hx2 : -536870912 ≤ x2 ∧ x2 ≤ 536870911) (hy2 : -536870912 ≤ y2 ∧ y2 ≤ 536870911) :
    inInt32 (x2 - x1) ∧ inInt32 (y2 - y1) ∧
    inInt32 |x2 - x1| ∧ inInt32 |y2 - y1| ∧ inInt32 (|x2 - x1| - |y2 - y1|) ∧
    inInt32 ((setup x1 y1 x2 y2).1.bDiff + (setup x1 y1 x2 y2).1.bDiff) ∧
    inInt32 ((setup x1 y1 x2 y2).1.bDiff + (setup x1 y1 x2 y2).1.bDiff -
      (setup x1 y1 x2 y2).1.aDiff) ∧
    inInt32 ((setup x1 y1 x2 y2).1.bDiff + (setup x1 y1 x2 y2).1.bDiff -
      (setup x1 y1 x2 y2).1.aDiff - (setup x1 y1 x2 y2).1.aDiff) ∧
    inInt32 (setup x1 y1 x2 y2).1.aTerm ∧
    (∀ k : Nat, (k : Int) ≤ max |x2 - x1| |y2 - y1| + 1 →
      inInt32 ((loop_body (setup x1 y1 x2 y2).1)^[k] (setup x1 y1 x2 y2).2).a ∧
      inInt32 ((loop_body (setup x1 y1 x2 y2).1)^[k] (setup x1 y1 x2 y2).2).b ∧
      inInt32 ((loop_body (setup x1 y1 x2 y2).1)^[k] (setup x1 y1 x2 y2).2).sign) ∧
    (setup32 x1 y1 x2 y2 = setup x1 y1 x2 y2) ∧
    (∀ (fuel : Nat) (r : Option SDL_Renderer),
      render_bresenham_line32 fuel r x1 y1 x2 y2 =
        render_bresenham_line fuel r x1 y1 x2 y2) := by
  have hax := abs_sub_le_of_coords hx1 hx2
  have hay := abs_sub_le_of_coords hy1 hy2
  have hax0 := abs_nonneg (x2 - x1)
  have hay0 := abs_nonneg (y2 - y1)
  obtain ⟨c1, c2, c3, c4⟩ := setup_constants_inInt32 x1 y1 x2 y2 hx1 hy1 hx2 hy2
  refine ⟨?_, ?_, ?_, ?_, ?_, c1, c2, c3, c4,
    fun k hk => reach_inInt32 x1 y1 x2 y2 hx1 hy1 hx2 hy2 k hk,
    setup32_eq x1 y1 x2 y2 hx1 hy1 hx2 hy2,
    fun fuel r => render32_eq x1 y1 x2 y2 hx1 hy1 hx2 hy2 fuel r⟩
  · unfold inInt32; omega
  · unfold inInt32; omega
  · unfold inInt32; constructor <;> linarith
  · unfold inInt32; constructor <;> linarith
  · unfold inInt32; constructor <;> linarith

/-- C17 at the extreme corners of the coordinate range,
`(-2^29, 2^29 - 1) → (2^29 - 1, -2^29)`, together with an evaluation of the
32-bit model on `(0,0) → (5,2)`. -/
theorem C17_no_overflow_32bit_witness :
    ((-536870912 : Int) ≤ -536870912 ∧ (-536870912 : Int) ≤ 536870911) ∧
    ((-536870912 : Int) ≤ 536870911 ∧ (536870911 : Int) ≤ 536870911) ∧
    ((-536870912 : Int) ≤ 536870911 ∧ (536870911 : Int) ≤ 536870911) ∧
    ((-536870912 : Int) ≤ -536870912 ∧ (-536870912 : Int) ≤ 536870911) ∧
    (∀ (fuel : Nat) (r : Option SDL_Renderer),
      render_bresenham_line32 fuel r (-536870912) 536870911 536870911 (-536870912) =
        render_bresenham_line fuel r (-536870912) 536870911 536870911 (-536870912)) ∧
    inInt32 (setup (-536870912) 536870911 536870911 (-536870912)).1.aTerm ∧
    render_bresenham_line32 6 (some ⟨0⟩) 0 0 5 2 =
      some [(0, 0), (1, 0), (2, 1), (3, 1), (4, 2), (5, 2)] :=
  ⟨⟨by decide, by decide⟩, ⟨by decide, by decide⟩, ⟨by decide, by decide⟩,
    ⟨by decide, by decide⟩,
    (C17_no_overflow_32bit (-536870912) 536870911 536870911 (-536870912)
      ⟨by decide, by decide⟩ ⟨by decide, by decide⟩ ⟨by decide, by decide⟩
      ⟨by decide, by decide⟩).2.2.2.2.2.2.2.2.2.2.2,
    (C17_no_overflow_32bit (-536870912) 536870911 536870911 (-536870912)
      ⟨by decide, by decide⟩ ⟨by decide, by decide⟩ ⟨by decide, by decide⟩
      ⟨by decide, by decide⟩).2.2.2.2.2.2.2.2.1,
    by decide⟩

/-- C18 (as stated) fails for 32-bit `int`: for `(0,0) → (INT_MIN,INT_MIN)` the
code has `aDiff = bDiff = INT_MIN` (not `max(|dx|,|dy|) = 2^31`) and `sign`
starts at `INT_MIN`, below `2*bDiff - 2*aDiff = 0`, at the very first
evaluation of the loop condition (`k = 0`). -/
theorem C18_overflow_counterexample :
    (setup32 0 0 (-2147483648) (-2147483648)).1.aDiff = -2147483648 ∧
    (setup32 0 0 (-2147483648) (-2147483648)).1.bDiff = -2147483648 ∧
    ((loop_body32 (setup32 0 0 (-2147483648) (-2147483648)).1)^[0]
      (setup32 0 0 (-2147483648) (-2147483648)).2).sign = -2147483648 ∧
    ¬ (2 * (setup32 0 0 (-2147483648) (-2147483648)).1.bDiff -
          2 * (setup32 0 0 (-2147483648) (-2147483648)).1.aDiff ≤
        ((loop_body32 (setup32 0 0 (-2147483648) (-2147483648)).1)^[0]
          (setup32 0 0 (-2147483648) (-2147483648)).2).sign) ∧
    ¬ (2 * min |(-2147483648 : Int) - 0| |(-2147483648 : Int) - 0| -
          2 * max |(-2147483648 : Int) - 0| |(-2147483648 : Int) - 0| ≤
        ((loop_body32 (setup32 0 0 (-2147483648) (-2147483648)).1)^[0]
          (setup32 0 0 (-2147483648) (-2147483648)).2).sign) ∧
    ¬ ((setup32 0 0 (-2147483648) (-2147483648)).1.aDiff =
        max |(-2147483648 : Int) - 0| |(-2147483648 : Int) - 0|) := by
  have ha : (setup32 0 0 (-2147483648) (-2147483648)).1.aDiff = -2147483648 := by decide
  have hb : (setup32 0 0 (-2147483648) (-2147483648)).1.bDiff = -2147483648 := by decide
  have hs : ((loop_body32 (setup32 0 0 (-2147483648) (-2147483648)).1)^[0]
      (setup32 0 0 (-2147483648) (-2147483648)).2).sign = -2147483648 := by decide
  refine ⟨ha, hb, hs, ?_, ?_, ?_⟩
  · rw [ha, hb, hs]; decide
  · rw [hs]; norm_num
  · rw [ha]; norm_num

/-- C18 (amended): decision-variable invariant: for all endpoints whose
coordinates lie in `[-2^29, 2^29 - 1]`, at every evaluation of the 32-bit
loop condition, i.e. after `k ≤ max(|dx|,|dy|) + 1` completed iterations, with
`m` the number of secondary-axis advances so far,
`sign = 2*bDiff*(k+1) - aDiff - 2*aDiff*m` and `b = start + m*bInc`, and
`2*bDiff - 2*aDiff ≤ sign ≤ 2*bDiff`, hence `|sign| ≤ 2*max(|dx|,|dy|)`; here
`aDiff = max(|dx|,|dy|)` and `bDiff = min(|dx|,|dy|)`. -/
theorem C18_decision_variable_invariant (x1 y1 x2 y2 : Int)
    (h : CoordsInRange x1 y1 x2 y2) (k : Nat)
    (hk : (k : Int) ≤ max |x2 - x1| |y2 - y1| + 1) :
    (setup32 x1 y1 x2 y2).1.aDiff = max |x2 - x1| |y2 - y1| ∧
    (setup32 x1 y1 x2 y2).1.bDiff = min |x2 - x1| |y2 - y1| ∧
    ((loop_body32 (setup32 x1 y1 x2 y2).1)^[k] (setup32 x1 y1 x2 y2).2).sign =
      2 * (setup32 x1 y1 x2 y2).1.bDiff * ((k : Int) + 1) - (setup32 x1 y1 x2 y2).1.aDiff -
        2 * (setup32 x1 y1 x2 y2).1.aDiff *
          (advanceCount32 (setup32 x1 y1 x2 y2).1 (setup32 x1 y1 x2 y2).2 k : Int) ∧
    ((loop_body32 (setup32 x1 y1 x2 y2).1)^[k] (setup32 x1 y1 x2 y2).2).b =
      (setup32 x1 y1 x2 y2).2.b +
        (advanceCount32 (setup32 x1 y1 x2 y2).1 (setup32 x1 y1 x2 y2).2 k : Int) *
          (setup32 x1 y1 x2 y2).1.bInc ∧
    2 * (setup32 x1 y1 x2 y2).1.bDiff - 2 * (setup32 x1 y1 x2 y2).1.aDiff ≤
      ((loop_body32 (setup32 x1 y1 x2 y2).1)^[k] (setup32 x1 y1 x2 y2).2).sign ∧
    ((loop_body32 (setup32 x1 y1 x2 y2).1)^[k] (setup32 x1 y1 x2 y2).2).sign ≤
      2 * (setup32 x1 y1 x2 y2).1.bDiff ∧
    |((loop_body32 (setup32 x1 y1 x2 y2).1)^[k] (setup32 x1 y1 x2 y2).2).sign| ≤
      2 * max |x2 - x1| |y2 - y1| := by
  rw [setup32_eq_of_range h, iterate32_eq h k hk, advanceCount32_eq h k hk]
  exact exact_decision_variable_invariant x1 y1 x2 y2 k

/-- C18 (amended) at `(0,0) → (5,2)` after `k = 3` iterations. -/
theorem C18_decision_variable_invariant_witness :
    (CoordsInRange 0 0 5 2 ∧
      ((3 : Nat) : Int) ≤ max |(5 : Int) - 0| |(2 : Int) - 0| + 1) ∧
    ((setup32 0 0 5 2).1.aDiff = max |(5 : Int) - (0 : Int)| |(2 : Int) - (0 : Int)| ∧
    (setup32 0 0 5 2).1.bDiff = min |(5 : Int) - (0 : Int)| |(2 : Int) - (0 : Int)| ∧
    ((loop_body32 (setup32 0 0 5 2).1)^[(3 : Nat)] (setup32 0 0 5 2).2).sign =
      2 * (setup32 0 0 5 2).1.bDiff * (((3 : Nat) : Int) + 1) - (setup32 0 0 5 2).1.aDiff -
        2 * (setup32 0 0 5 2).1.aDiff *
          (advanceCount32 (setup32 0 0 5 2).1 (setup32 0 0 5 2).2 (3 : Nat) : Int) ∧
    ((loop_body32 (setup32 0 0 5 2).1)^[(3 : Nat)] (setup32 0 0 5 2).2).b =
      (setup32 0 0 5 2).2.b +
        (advanceCount32 (setup32 0 0 5 2).1 (setup32 0 0 5 2).2 (3 : Nat) : Int) *
          (setup32 0 0 5 2).1.bInc ∧
    2 * (setup32 0 0 5 2).1.bDiff - 2 * (setup32 0 0 5 2).1.aDiff ≤
      ((loop_body32 (setup32 0 0 5 2).1)^[(3 : Nat)] (setup32 0 0 5 2).2).sign ∧
    ((loop_body32 (setup32 0 0 5 2).1)^[(3 : Nat)] (setup32 0 0 5 2).2).sign ≤
      2 * (setup32 0 0 5 2).1.bDiff ∧
    |((loop_body32 (setup32 0 0 5 2).1)^[(3 : Nat)] (setup32 0 0 5 2).2).sign| ≤
      2 * max |(5 : Int) - (0 : Int)| |(2 : Int) - (0 : Int)|) ∧
    ((loop_body32 (setup32 0 0 5 2).1)^[3] (setup32 0 0 5 2).2).sign = 1 ∧
    advanceCount32 (setup32 0 0 5 2).1 (setup32 0 0 5 2).2 3 = 1 := by
  have hk : ((3 : Nat) : Int) ≤ max |(5 : Int) - 0| |(2 : Int) - 0| + 1 := by norm_num
  exact ⟨⟨by decide, hk⟩, C18_decision_variable_invariant 0 0 5 2 (by decide) 3 hk,
    by decide, by decide⟩

end Bresenham
